import Mathlib

/-!
# PSO password generator (`password.c`): embedding and verified properties

Modelling conventions.

* A C string is the list of its character codes before the terminating NUL
  (`List Int`, each code an `int`-promoted `char`); `strlen` is `List.length`
  and `s[i]` is `charAt s i`, which reads the terminator `0` at `i = strlen s`.
* A `double` is the rational it denotes. In `calculateFitness` every constant and
  every arithmetic operation is rounded to IEEE 754 binary64 (`fl`: round to
  nearest, ties to even). The velocity arithmetic of `updateParticle` and the
  inertia weight are taken without rounding.
* `rand()` is a stream `rand : Nat → Nat` together with a counter `k` of the
  calls made so far; every function that draws returns the advanced counter.
* `char` is a signed 8-bit integer; storing an integer outside `[-128, 127]`
  into a `char` keeps its low 8 bits (`toChar`), as compiled code does on x86-64.
* A function whose C code faults on an access outside allocated memory returns
  `none` (`Option`).
-/

namespace PSO

/-! ## Character handling (`<ctype.h>`, "C" locale) -/

/-- The character `s[i]` of a NUL-terminated string. -/
def charAt (s : List Int) (i : Nat) : Int := s.getD i 0

/-- The `isupper` test: `'A'..'Z'`. -/
def isupper (c : Int) : Bool := decide (65 ≤ c) && decide (c ≤ 90)

/-- The `islower` test: `'a'..'z'`. -/
def islower (c : Int) : Bool := decide (97 ≤ c) && decide (c ≤ 122)

/-- The `isdigit` test: `'0'..'9'`. -/
def isdigit (c : Int) : Bool := decide (48 ≤ c) && decide (c ≤ 57)

/-! ## Binary64 arithmetic -/

/-- Number of binary digits of `n`, computed with at most `fuel` halvings
(`bitLength n n` is the bit length of `n`). -/
def bitLength : Nat → Nat → Nat
  | 0, _ => 0
  | fuel + 1, n => if n = 0 then 0 else bitLength fuel (n / 2) + 1

/-- Rounding of a rational to the nearest integer, ties going to the even one. -/
def roundHalfEven (y : ℚ) : Int :=
  if y - (⌊y⌋ : ℚ) < 1 / 2 then ⌊y⌋
  else if 1 / 2 < y - (⌊y⌋ : ℚ) then ⌊y⌋ + 1
  else if ⌊y⌋ % 2 = 0 then ⌊y⌋ else ⌊y⌋ + 1

/-- The binary exponent of `x ≠ 0`: the integer `e` with `2 ^ e ≤ |x| < 2 ^ (e + 1)`. It is
the difference of the bit lengths of numerator and denominator, or one less. -/
def binExp (x : ℚ) : Int :=
  if (2 : ℚ) ^ ((bitLength x.num.natAbs x.num.natAbs : Int) - (bitLength x.den x.den : Int))
      ≤ |x|
  then (bitLength x.num.natAbs x.num.natAbs : Int) - (bitLength x.den x.den : Int)
  else (bitLength x.num.natAbs x.num.natAbs : Int) - (bitLength x.den x.den : Int) - 1

/-- Rounding of a real result to `double` (IEEE 754 binary64, round to nearest, ties to
even): the nearest multiple of `2 ^ (e - 52)` for the binary exponent `e` of `x`, a number
with 53 significant bits. The exponent range is not bounded: in this program no value
overflows and none is subnormal. -/
def fl (x : ℚ) : ℚ :=
  if x = 0 then 0
  else (roundHalfEven (x / (2 : ℚ) ^ (binExp x - 52)) : ℚ) * (2 : ℚ) ^ (binExp x - 52)

/-! ## `calculateFitness` -/

/-- The local variables of `calculateFitness` that its main loop mutates. -/
structure FitnessVars where
  randomness : ℚ
  repetitionPenalty : ℚ
  hasUppercase : Bool
  hasLowercase : Bool
  hasNumber : Bool
  hasSymbol : Bool
  deriving DecidableEq

/-- Body of the inner loop `for (j = i + 1; j < length; ++j)`. -/
def fitnessInnerBody (password : List Int) (i : Nat) (repetitionPenalty : ℚ) (j : Nat) : ℚ :=
  if charAt password i = charAt password j then fl (repetitionPenalty - fl (1 / 20))
  else repetitionPenalty

/-- Body of the outer loop `for (i = 0; i < length - 1; ++i)`. -/
def fitnessBody (password : List Int) (length : Nat) (v : FitnessVars) (i : Nat) :
    FitnessVars :=
  let randomness :=
    fl (v.randomness + fl ((|charAt password (i + 1) - charAt password i| : Int) : ℚ))
  let v1 : FitnessVars :=
    if isupper (charAt password i) then { v with hasUppercase := true }
    else if islower (charAt password i) then { v with hasLowercase := true }
    else if isdigit (charAt password i) then { v with hasNumber := true }
    else { v with hasSymbol := true }
  let rp1 : ℚ :=
    if charAt password i = charAt password (i + 1) then fl (v.repetitionPenalty - fl (1 / 5))
    else v.repetitionPenalty
  let rp2 : ℚ := (List.range' (i + 1) (length - (i + 1))).foldl (fitnessInnerBody password i) rp1
  { v1 with randomness := randomness, repetitionPenalty := rp2 }

/-- Initial values of the locals of `calculateFitness`. -/
def fitnessInit : FitnessVars :=
  { randomness := 0, repetitionPenalty := 1, hasUppercase := false, hasLowercase := false,
    hasNumber := false, hasSymbol := false }

/-- State of the locals of `calculateFitness` when the main loop has finished. -/
def fitnessLoop (password : List Int) : FitnessVars :=
  (List.range (password.length - 1)).foldl (fitnessBody password password.length) fitnessInit

/-- The variety sum accumulated after the loop (`varietyPenalty` in the source). -/
def varietyOf (v : FitnessVars) : ℚ :=
  let p0 : ℚ := 0
  let p1 := if v.hasLowercase then fl (p0 + fl (1 / 4)) else p0
  let p2 := if v.hasUppercase then fl (p1 + fl (1 / 4)) else p1
  let p3 := if v.hasNumber then fl (p2 + fl (1 / 4)) else p2
  if v.hasSymbol then fl (p3 + fl (1 / 4)) else p3

/-- The function `calculateFitness` of `password.c`; the constants `0.2`, `0.05`, `0.25`
are the doubles `fl (1 / 5)`, `fl (1 / 20)`, `fl (1 / 4)`, and every operation rounds. -/
def calculateFitness (password : List Int) : ℚ :=
  let length := password.length
  let v := fitnessLoop password
  let repetitionPenalty := if v.repetitionPenalty < 0 then 0 else v.repetitionPenalty
  fl (fl (fl (fl (length : ℚ) + v.randomness) * varietyOf v) * repetitionPenalty)

/-- Character codes of a Lean string, for writing test inputs. -/
def codes (s : String) : List Int := s.toList.map (fun c => (c.toNat : Int))

/-! ## The fitness formula in the words of the specification -/

/-- Sum over adjacent pairs of the absolute difference of the character codes. -/
def specRandomness (s : List Int) : ℚ :=
  ∑ i in Finset.range (s.length - 1), ((|charAt s (i + 1) - charAt s i| : Int) : ℚ)

/-- Number of the four classes (uppercase, lowercase, digit, other) that occur among the
characters at the indices `0 .. L-2`. -/
def specClassCount (s : List Int) : Nat :=
  (if ∃ i < s.length - 1, isupper (charAt s i) = true then 1 else 0) +
  (if ∃ i < s.length - 1, islower (charAt s i) = true then 1 else 0) +
  (if ∃ i < s.length - 1, isdigit (charAt s i) = true then 1 else 0) +
  (if ∃ i < s.length - 1, (isupper (charAt s i) = false ∧
      islower (charAt s i) = false ∧ isdigit (charAt s i) = false) then 1 else 0)

/-- The variety factor `V`: a quarter for each class present. -/
def specVariety (s : List Int) : ℚ := (1 / 4) * (specClassCount s : ℚ)

/-- The number `A` of indices `i` with `0 ≤ i ≤ L-2` and `s[i] = s[i+1]`. -/
def specAdjacent (s : List Int) : Nat :=
  ((Finset.range (s.length - 1)).filter (fun i => charAt s i = charAt s (i + 1))).card

/-- The number `D` of index pairs `i < j` (both below `L`) with `s[i] = s[j]`. -/
def specDuplicates (s : List Int) : Nat :=
  ((Finset.range s.length ×ˢ Finset.range s.length).filter
    (fun p => p.1 < p.2 ∧ charAt s p.1 = charAt s p.2)).card

/-- The repetition factor `P = max(0, 1 - 0.2 A - 0.05 D)`. -/
def specPenalty (s : List Int) : ℚ :=
  max 0 (1 - (1 / 5) * (specAdjacent s : ℚ) - (1 / 20) * (specDuplicates s : ℚ))

/-- The string is made of printable, non-space ASCII characters. -/
def Printable (s : List Int) : Prop := ∀ c ∈ s, 33 ≤ c ∧ c ≤ 126

instance (s : List Int) : Decidable (Printable s) := by
  unfold Printable; infer_instance

/-! ## Auxiliary functions used in the proofs -/

/-- Number of later positions `j` in `(i, n)` holding the same character as position `i`. -/
def laterDups (pw : List Int) (n i : Nat) : Nat :=
  (List.range' (i + 1) (n - (i + 1))).countP (fun j => decide (charAt pw i = charAt pw j))

/-- The amounts subtracted from the repetition penalty in round `i` of the outer loop, in
the order of the source and in units of `0.05`: `4` for an adjacent equal pair, then `1`
for every later position holding the same character. -/
def penaltySteps (pw : List Int) (n i : Nat) : List Nat :=
  (if charAt pw i = charAt pw (i + 1) then [4] else []) ++
    ((List.range' (i + 1) (n - (i + 1))).filter
      (fun j => decide (charAt pw i = charAt pw j))).map (fun _ => 1)

/-- All amounts subtracted from the repetition penalty, in the order of the source. -/
def allSteps (pw : List Int) : List Nat :=
  ((List.range (pw.length - 1)).map (penaltySteps pw pw.length)).flatten

/-- The double subtracted for a step of `u` units. -/
def stepAmount (u : Nat) : ℚ := if u = 4 then fl (1 / 5) else fl (1 / 20)

/-- The successive rounded subtractions of the steps from `p`. -/
def subtractAll (steps : List Nat) (p : ℚ) : ℚ :=
  steps.foldl (fun p u => fl (p - stepAmount u)) p

/-! ## Particles -/

/-- The macro `RAND_MAX` of `<stdlib.h>`; the value is the one of glibc. -/
def RAND_MAX : Nat := 2147483647

/-- The macro `INERTIA_WEIGHT`. -/
def INERTIA_WEIGHT : ℚ := 1 / 2

/-- The macro `PERSONAL_BEST_WEIGHT`. -/
def PERSONAL_BEST_WEIGHT : ℚ := 2

/-- The macro `GLOBAL_BEST_WEIGHT`. -/
def GLOBAL_BEST_WEIGHT : ℚ := 2

/-- The struct `Particle`; the two strings are owned copies (`strdup`), never aliases. -/
structure Particle where
  password : List Int
  fitness : ℚ
  personalBest : List Int
  personalBestFitness : ℚ
  velocity : ℚ
  deriving DecidableEq

/-- The function `round` of `<math.h>`: nearest integer, halfway cases away from zero. -/
def cRound (x : ℚ) : Int := if 0 ≤ x then ⌊x + 1 / 2⌋ else -⌊-x + 1 / 2⌋

/-- Storing an integer value into a (signed, 8-bit) `char`: the low 8 bits are kept. -/
def toChar (z : Int) : Int := (z + 128) % 256 - 128

/-- The function `initializeParticle`. The `i`-th round of its loop makes the call number
`k + i` of `rand`. For `length = -1` the block of `malloc(0)` is used, the loop runs zero
times and the particle holds the empty string; for `length < -1` the allocation fails and
`password[length] = 0` faults: no result. Returns the particle and the advanced call
counter. -/
def initializeParticle (rand : Nat → Nat) (k : Nat) (length : Int) : Option (Particle × Nat) :=
  if length < -1 then none
  else
    let password : List Int :=
      (List.range length.toNat).map (fun i => (33 : Int) + ((rand (k + i) % 94 : Nat) : Int))
    let fitness := calculateFitness password
    some ({ password := password, fitness := fitness, personalBest := password,
            personalBestFitness := fitness, velocity := 0 }, k + length.toNat)

/-- The clamp at the end of the loop body of `updateParticle`. -/
def clampChar (c : Int) : Int := if c < 33 then 33 else if c > 126 then 126 else c

/-- Body of the loop of `updateParticle` at position `i`, on the triple (current string,
velocity, number of calls of `rand` made so far). -/
def updateBody (rand : Nat → Nat) (personalBest globalBest : List Int) (inertiaWeight : ℚ)
    (st : List Int × ℚ × Nat) (i : Nat) : List Int × ℚ × Nat :=
  let password := st.1
  let k := st.2.2
  let r1 : ℚ := (rand k : ℚ) / (RAND_MAX : ℚ)
  let r2 : ℚ := (rand (k + 1) : ℚ) / (RAND_MAX : ℚ)
  let cognitiveComponent : ℚ :=
    PERSONAL_BEST_WEIGHT * r1 * ((charAt personalBest i - charAt password i : Int) : ℚ)
  let socialComponent : ℚ :=
    GLOBAL_BEST_WEIGHT * r2 * ((charAt globalBest i - charAt password i : Int) : ℚ)
  let velocity : ℚ := inertiaWeight * st.2.1 + cognitiveComponent + socialComponent
  let stored : Int := toChar (charAt password i + cRound velocity)
  (password.set i (clampChar stored), velocity, k + 2)

/-- The function `updateParticle`; returns the particle and the advanced call counter. -/
def updateParticle (rand : Nat → Nat) (k : Nat) (particle : Particle) (globalBest : List Int)
    (inertiaWeight : ℚ) : Particle × Nat :=
  let length := particle.password.length
  let st := (List.range length).foldl
    (updateBody rand particle.personalBest globalBest inertiaWeight)
    (particle.password, particle.velocity, k)
  let fitness := calculateFitness st.1
  if fitness > particle.personalBestFitness then
    ({ password := st.1, fitness := fitness, personalBest := st.1,
       personalBestFitness := fitness, velocity := st.2.1 }, st.2.2)
  else
    ({ password := st.1, fitness := fitness, personalBest := particle.personalBest,
       personalBestFitness := particle.personalBestFitness, velocity := st.2.1 }, st.2.2)

/-! ## The swarm -/

/-- The field `swarm[i].fitness` (`0` stands for a read outside the array). -/
def fitnessAt (swarm : List Particle) (i : Nat) : ℚ :=
  match swarm[i]? with
  | some p => p.fitness
  | none => 0

/-- The function `findBestParticle`: the loop runs over `i = 1 .. numParticles - 1`. -/
def findBestParticle (swarm : List Particle) (numParticles : Int) : Nat :=
  (List.range' 1 (numParticles - 1).toNat).foldl
    (fun bestIndex i => if fitnessAt swarm i > fitnessAt swarm bestIndex then i else bestIndex) 0

/-- The first loop of `generatePassword`, run for `n` rounds: the particles initialised so
far and the advanced call counter. -/
def initializeSwarm (rand : Nat → Nat) (length : Int) (k : Nat) :
    Nat → Option (List Particle × Nat)
  | 0 => some ([], k)
  | n + 1 =>
    match initializeSwarm rand length k n with
    | none => none
    | some (swarm, k1) =>
      match initializeParticle rand k1 length with
      | none => none
      | some (p, k2) => some (swarm ++ [p], k2)

/-- The loop `for (i = 0; i < numParticles; ++i) updateParticle(&swarm[i], ...)`. -/
def updateSwarm (rand : Nat → Nat) (globalBest : List Int) (inertiaWeight : ℚ) :
    List Particle → Nat → List Particle × Nat
  | [], k => ([], k)
  | p :: ps, k =>
    let r := updateParticle rand k p globalBest inertiaWeight
    let rs := updateSwarm rand globalBest inertiaWeight ps r.2
    (r.1 :: rs.1, rs.2)

/-- The statement `globalBest = strdup(swarm[findBestParticle(swarm, numParticles)].password)`;
no result when the index is outside the array. -/
def selectGlobalBest (swarm : List Particle) (numParticles : Int) : Option (List Int) :=
  match swarm[findBestParticle swarm numParticles]? with
  | some p => some p.password
  | none => none

/-- The variables of `generatePassword` that live across its main loop. -/
structure SwarmState where
  swarm : List Particle
  globalBest : List Int
  k : Nat
  deriving DecidableEq

/-- The inertia weight of round `iteration`. -/
def inertiaWeightAt (maxIterations : Int) (iteration : Nat) : ℚ :=
  INERTIA_WEIGHT - (INERTIA_WEIGHT / (maxIterations : ℚ)) * (iteration : ℚ)

/-- Body of the main loop of `generatePassword` (the printing of verbose mode left out). -/
def psoIteration (rand : Nat → Nat) (numParticles maxIterations : Int) (st : SwarmState)
    (iteration : Nat) : Option SwarmState :=
  let inertiaWeight := inertiaWeightAt maxIterations iteration
  let r := updateSwarm rand st.globalBest inertiaWeight st.swarm st.k
  match selectGlobalBest r.1 numParticles with
  | some globalBest => some { swarm := r.1, globalBest := globalBest, k := r.2 }
  | none => none

/-- The main loop of `generatePassword` after `t` rounds. -/
def psoLoop (rand : Nat → Nat) (numParticles maxIterations : Int) (st : SwarmState) :
    Nat → Option SwarmState
  | 0 => some st
  | t + 1 =>
    match psoLoop rand numParticles maxIterations st t with
    | some s => psoIteration rand numParticles maxIterations s t
    | none => none

/-- The variables of `generatePassword` when its main loop starts. -/
def initialState (rand : Nat → Nat) (length numParticles : Int) : Option SwarmState :=
  match initializeSwarm rand length 0 numParticles.toNat with
  | none => none
  | some (swarm, k) =>
    match selectGlobalBest swarm numParticles with
    | some globalBest => some { swarm := swarm, globalBest := globalBest, k := k }
    | none => none

/-- The function `generatePassword`, for the stream `rand` of values returned by `rand()`. -/
def generatePassword (rand : Nat → Nat) (length numParticles maxIterations : Int) :
    Option (List Int) :=
  match initialState rand length numParticles with
  | none => none
  | some st =>
    match psoLoop rand numParticles maxIterations st maxIterations.toNat with
    | some s => some s.globalBest
    | none => none

/-! ## Statements of the specification about particles -/

/-- The position update in the words of the specification: the new code of `current[i]` is
`clamp(old + round(v), 33, 126)` with `v = inertiaWeight * velocity +
2.0 * r1 * (personalBest[i] - old) + 2.0 * r2 * (globalBest[i] - old)`, the sum being an
unbounded integer. -/
def specUpdateChar (old pb gb : Int) (inertiaWeight velocity r1 r2 : ℚ) : Int :=
  let v : ℚ := inertiaWeight * velocity + 2 * r1 * ((pb - old : Int) : ℚ)
    + 2 * r2 * ((gb - old : Int) : ℚ)
  max 33 (min 126 (old + cRound v))

/-- The consistency of a particle's cached scores with its strings. -/
def Consistent (p : Particle) : Prop :=
  p.personalBestFitness = calculateFitness p.personalBest ∧
  p.fitness = calculateFitness p.password ∧
  p.fitness ≤ p.personalBestFitness

instance (p : Particle) : Decidable (Consistent p) := by
  unfold Consistent; infer_instance

/-! ## Concrete inputs -/

/-- A stream of `rand()` results given by a finite table, continued with zeros. -/
def drawsOf (table : List Nat) : Nat → Nat := fun k => table.getD k 0

/-- A particle freshly initialised with the string `s` (velocity `0`, personal best `s`). -/
def freshParticle (s : List Int) : Particle :=
  { password := s, fitness := calculateFitness s, personalBest := s,
    personalBestFitness := calculateFitness s, velocity := 0 }

/-- Draws of a run with `length = 2`, `numParticles = 2`, `maxIterations = 2`: the start
strings are `"!!"` and `"!+"`; in both rounds only the social draw of the second character
of the first particle is `RAND_MAX`. -/
def regressDraws : Nat → Nat :=
  drawsOf [0, 0, 0, 10,
    0, 0, 0, RAND_MAX, 0, 0, 0, 0,
    0, 0, 0, RAND_MAX, 0, 0, 0, 0]

/-- Draws of a run with `length = 1`, `numParticles = 2`, `maxIterations = 1`: the start
strings are `"~"` and `"!"`, and the social draw of the second particle is `RAND_MAX`. -/
def overflowDraws : Nat → Nat := drawsOf [93, 0, 0, 0, 0, RAND_MAX]

/-- Draws of a call with `length = 5`, `numParticles = 2`, `maxIterations = 0`: the start
strings are `[33, 33, 33, 34, 34]` and `[33, 33, 34, 34, 34]`. -/
def tieDraws : Nat → Nat := drawsOf [0, 0, 0, 1, 1, 0, 0, 1, 1, 1]

/-- The one-character particle of the overflow example: current string `"!"`, personal
best `pb`, velocity `0`; all one-character strings score `0`. -/
def stuckParticle (pb : Int) : Particle :=
  { password := [33], fitness := 0, personalBest := [pb], personalBestFitness := 0,
    velocity := 0 }

/-- The first particle of the run on `regressDraws` after its second round: its current
string `"&6"` scores `4.5`, below its personal best `"!5"` with `5.5`. -/
def regressBest : Particle :=
  { password := [38, 54], fitness := 9 / 2, personalBest := [33, 53],
    personalBestFitness := 11 / 2, velocity := 5 / 4 }

/-- The variables of the run on `regressDraws` after its second round. -/
def regressFinal : SwarmState :=
  { swarm := [regressBest, freshParticle [33, 43]], globalBest := [38, 54], k := 20 }

/-- The variables of the run on `overflowDraws` after its only round. -/
def overflowFinal : SwarmState :=
  { swarm := [freshParticle [126],
      { password := [33], fitness := 0, personalBest := [33], personalBestFitness := 0,
        velocity := 186 }],
    globalBest := [126], k := 6 }

/-! ## Closed forms used in the statements about runs -/

/-- The string written by the loop of `initializeParticle` when `k` calls of `rand` have
been made before it: position `i` holds `33 + rand() % 94` for the call number `k + i`. -/
def initialString (rand : Nat → Nat) (k n : Nat) : List Int :=
  (List.range n).map (fun i => (33 : Int) + ((rand (k + i) % 94 : Nat) : Int))

/-- The swarm left by the first loop of `generatePassword`: particle `j` is initialised
from the calls `j * length .. j * length + length - 1` of `rand`. -/
def initialSwarm (rand : Nat → Nat) (length n : Nat) : List Particle :=
  (List.range n).map (fun j => freshParticle (initialString rand (j * length) length))

/-- The expression `(double)rand() / RAND_MAX` for a result `n` of `rand()`. -/
def randomCoefficient (n : Nat) : ℚ := (n : ℚ) / (RAND_MAX : ℚ)

/-! # Lemmas -/

/-! ## Rounding to binary64 -/

theorem bitLength_spec (fuel n : Nat) (hn : n ≠ 0) (hf : n ≤ fuel) :
    ∃ b, bitLength fuel n = b + 1 ∧ 2 ^ b ≤ n ∧ n < 2 ^ (b + 1) := by
  induction fuel generalizing n with
  | zero => omega
  | succ fuel ih =>
    unfold bitLength
    rw [if_neg hn]
    by_cases h2 : n / 2 = 0
    · refine ⟨0, ?_, ?_, ?_⟩
      · rw [h2]
        cases fuel with
        | zero => rfl
        | succ f => simp [bitLength]
      · simp; omega
      · simp; omega
    · obtain ⟨b, hb, hlo, hhi⟩ := ih (n / 2) h2 (by omega)
      refine ⟨b + 1, by rw [hb], ?_, ?_⟩
      · rw [pow_succ]; omega
      · rw [pow_succ]; omega

theorem roundHalfEven_error (y : ℚ) : |(roundHalfEven y : ℚ) - y| ≤ 1 / 2 := by
  have h1 := Int.floor_le y
  have h2 := Int.lt_floor_add_one y
  unfold roundHalfEven
  rw [abs_le]
  split_ifs with ha hb hc
  · constructor <;> linarith
  · push_cast
    constructor <;> linarith
  · constructor <;> linarith
  · push_cast
    constructor <;> linarith

theorem roundHalfEven_int (z : Int) : roundHalfEven (z : ℚ) = z := by
  unfold roundHalfEven
  rw [Int.floor_intCast]
  simp

theorem abs_eq_natAbs_div (x : ℚ) : |x| = (x.num.natAbs : ℚ) / (x.den : ℚ) := by
  have hd : (0 : ℚ) < (x.den : ℚ) := by exact_mod_cast x.den_pos
  conv_lhs => rw [← Rat.num_div_den x]
  rw [abs_div, abs_of_pos hd, Nat.cast_natAbs, Int.cast_abs]

/-- The binary exponent brackets the magnitude. -/
theorem binExp_spec (x : ℚ) (hx : x ≠ 0) :
    (2 : ℚ) ^ binExp x ≤ |x| ∧ |x| < (2 : ℚ) ^ (binExp x + 1) := by
  have hn : x.num.natAbs ≠ 0 := by
    simpa [Int.natAbs_eq_zero] using hx
  obtain ⟨a, ha, halo, hahi⟩ := bitLength_spec x.num.natAbs x.num.natAbs hn (le_refl _)
  obtain ⟨b, hb, hblo, hbhi⟩ := bitLength_spec x.den x.den x.den_ne_zero (le_refl _)
  have hd : (0 : ℚ) < (x.den : ℚ) := by exact_mod_cast x.den_pos
  have halo' : (2 : ℚ) ^ a ≤ (x.num.natAbs : ℚ) := by exact_mod_cast halo
  have hahi' : (x.num.natAbs : ℚ) < (2 : ℚ) ^ (a + 1) := by exact_mod_cast hahi
  have hblo' : (2 : ℚ) ^ b ≤ (x.den : ℚ) := by exact_mod_cast hblo
  have hbhi' : (x.den : ℚ) < (2 : ℚ) ^ (b + 1) := by exact_mod_cast hbhi
  have e1 : ((bitLength x.num.natAbs x.num.natAbs : Int) - (bitLength x.den x.den : Int))
      = (a : Int) - (b : Int) := by
    rw [ha, hb]; push_cast; ring
  have hpa : (0 : ℚ) < (2 : ℚ) ^ a := by positivity
  have hpb : (0 : ℚ) < (2 : ℚ) ^ b := by positivity
  have hz : (2 : ℚ) ^ ((a : Int) - (b : Int)) = (2 : ℚ) ^ a / (2 : ℚ) ^ b := by
    rw [zpow_sub₀ (by norm_num : (2 : ℚ) ≠ 0), zpow_natCast, zpow_natCast]
  have hup : |x| < (2 : ℚ) ^ ((a : Int) - (b : Int) + 1) := by
    rw [zpow_add_one₀ (by norm_num : (2 : ℚ) ≠ 0), hz, abs_eq_natAbs_div, div_lt_iff₀ hd]
    have : (2 : ℚ) ^ a / (2 : ℚ) ^ b * 2 * (x.den : ℚ)
        = (2 : ℚ) ^ (a + 1) * ((x.den : ℚ) / (2 : ℚ) ^ b) := by
      rw [pow_succ]; field_simp
    rw [this]
    have h1 : (1 : ℚ) ≤ (x.den : ℚ) / (2 : ℚ) ^ b := by
      rw [le_div_iff₀ hpb]; linarith
    nlinarith [pow_pos (by norm_num : (0 : ℚ) < 2) (a + 1)]
  have hlow : (2 : ℚ) ^ ((a : Int) - (b : Int) - 1) ≤ |x| := by
    rw [zpow_sub_one₀ (by norm_num : (2 : ℚ) ≠ 0), hz, abs_eq_natAbs_div, le_div_iff₀ hd]
    have : (2 : ℚ) ^ a / (2 : ℚ) ^ b * 2⁻¹ * (x.den : ℚ)
        = (2 : ℚ) ^ a * ((x.den : ℚ) / (2 : ℚ) ^ (b + 1)) := by
      rw [pow_succ]; field_simp
    rw [this]
    have h1 : (x.den : ℚ) / (2 : ℚ) ^ (b + 1) ≤ 1 := by
      rw [div_le_iff₀ (by positivity)]; linarith
    nlinarith
  unfold binExp
  rw [e1]
  split_ifs with h
  · exact ⟨h, hup⟩
  · refine ⟨hlow, ?_⟩
    rw [sub_add_cancel]
    exact not_le.mp h

theorem fl_zero : fl 0 = 0 := by
  simp [fl]

/-- The error of rounding to binary64 is at most `2 ^ (-53)` of the magnitude. -/
theorem fl_error (x : ℚ) : |fl x - x| ≤ |x| / 2 ^ 53 := by
  by_cases hx : x = 0
  · subst hx
    simp [fl_zero]
  · obtain ⟨hlo, _⟩ := binExp_spec x hx
    have hq : (0 : ℚ) < (2 : ℚ) ^ (binExp x - 52) := by positivity
    have herr := roundHalfEven_error (x / (2 : ℚ) ^ (binExp x - 52))
    have hfl : fl x - x
        = ((roundHalfEven (x / (2 : ℚ) ^ (binExp x - 52)) : ℚ)
            - x / (2 : ℚ) ^ (binExp x - 52)) * (2 : ℚ) ^ (binExp x - 52) := by
      unfold fl
      rw [if_neg hx]
      field_simp
    rw [hfl, abs_mul, abs_of_pos hq]
    have hsplit : (2 : ℚ) ^ (binExp x - 52) = (2 : ℚ) ^ binExp x / 2 ^ 52 := by
      rw [zpow_sub₀ (by norm_num : (2 : ℚ) ≠ 0)]
      norm_num
    have hb : (0 : ℚ) < (2 : ℚ) ^ binExp x := by positivity
    calc |(roundHalfEven (x / (2 : ℚ) ^ (binExp x - 52)) : ℚ)
            - x / (2 : ℚ) ^ (binExp x - 52)| * (2 : ℚ) ^ (binExp x - 52)
        ≤ 1 / 2 * (2 : ℚ) ^ (binExp x - 52) := mul_le_mul_of_nonneg_right herr hq.le
      _ = (2 : ℚ) ^ binExp x / 2 ^ 53 := by rw [hsplit]; ring
      _ ≤ |x| / 2 ^ 53 := div_le_div_of_nonneg_right hlo (by positivity)

theorem fl_pos (x : ℚ) (hx : 0 < x) : 0 < fl x := by
  have h := fl_error x
  rw [abs_of_pos hx, abs_le] at h
  have : x / 2 ^ 53 < x := by
    rw [div_lt_iff₀ (by positivity)]
    nlinarith
  linarith [h.1]

theorem fl_neg (x : ℚ) (hx : x < 0) : fl x < 0 := by
  have h := fl_error x
  rw [abs_of_neg hx, abs_le] at h
  have : -x / 2 ^ 53 < -x := by
    rw [div_lt_iff₀ (by positivity)]
    nlinarith
  linarith [h.2]

theorem fl_nonneg (x : ℚ) (hx : 0 ≤ x) : 0 ≤ fl x := by
  rcases hx.eq_or_lt with h | h
  · rw [← h, fl_zero]
  · exact (fl_pos x h).le

/-- Numbers with at most 53 significant bits are not changed by rounding to binary64. -/
theorem fl_exact (m e : Int) (hm : |m| < 2 ^ 53) : fl ((m : ℚ) * (2 : ℚ) ^ e) = (m : ℚ) * (2 : ℚ) ^ e := by
  by_cases h0 : m = 0
  · subst h0
    simp [fl_zero]
  · have hx : (m : ℚ) * (2 : ℚ) ^ e ≠ 0 := by
      have : (m : ℚ) ≠ 0 := by exact_mod_cast h0
      positivity
    obtain ⟨hlo, _⟩ := binExp_spec _ hx
    have hmabs : |(m : ℚ)| < 2 ^ 53 := by exact_mod_cast hm
    have hlt : (2 : ℚ) ^ binExp ((m : ℚ) * (2 : ℚ) ^ e) < (2 : ℚ) ^ (53 + e) := by
      have he : (0 : ℚ) < (2 : ℚ) ^ e := by positivity
      calc (2 : ℚ) ^ binExp ((m : ℚ) * (2 : ℚ) ^ e) ≤ |(m : ℚ) * (2 : ℚ) ^ e| := hlo
        _ = |(m : ℚ)| * (2 : ℚ) ^ e := by rw [abs_mul, abs_of_pos he]
        _ < 2 ^ 53 * (2 : ℚ) ^ e := mul_lt_mul_of_pos_right hmabs he
        _ = (2 : ℚ) ^ (53 + e) := by
          rw [zpow_add₀ (by norm_num : (2 : ℚ) ≠ 0)]
          norm_num
    have hexp : binExp ((m : ℚ) * (2 : ℚ) ^ e) < 53 + e :=
      (zpow_lt_zpow_iff_right₀ (by norm_num : (1 : ℚ) < 2)).mp hlt
    obtain ⟨k, hk⟩ : ∃ k : Nat, e - (binExp ((m : ℚ) * (2 : ℚ) ^ e) - 52) = (k : Int) :=
      ⟨(e - (binExp ((m : ℚ) * (2 : ℚ) ^ e) - 52)).toNat, by omega⟩
    have hy : (m : ℚ) * (2 : ℚ) ^ e / (2 : ℚ) ^ (binExp ((m : ℚ) * (2 : ℚ) ^ e) - 52)
        = ((m * 2 ^ k : Int) : ℚ) := by
      rw [mul_div_assoc, ← zpow_sub₀ (by norm_num : (2 : ℚ) ≠ 0), hk, zpow_natCast]
      push_cast
      ring
    unfold fl
    rw [if_neg hx, hy, roundHalfEven_int]
    push_cast
    rw [mul_assoc, ← zpow_natCast, ← hk, ← zpow_add₀ (by norm_num : (2 : ℚ) ≠ 0)]
    congr 2
    ring

/-! ## Counting over index ranges -/

theorem islower_not_isupper (c : Int) : (!isupper c && islower c) = islower c := by
  unfold isupper islower
  by_cases h1 : 65 ≤ c <;> by_cases h2 : c ≤ 90 <;> by_cases h3 : 97 ≤ c <;>
    by_cases h4 : c ≤ 122 <;> simp [h1, h2, h3, h4]; omega

theorem isdigit_not_alpha (c : Int) :
    (!isupper c && !islower c && isdigit c) = isdigit c := by
  unfold isupper islower isdigit
  by_cases h1 : 65 ≤ c <;> by_cases h2 : c ≤ 90 <;> by_cases h3 : 97 ≤ c <;>
    by_cases h4 : c ≤ 122 <;> by_cases h5 : 48 ≤ c <;> by_cases h6 : c ≤ 57 <;>
    simp [h1, h2, h3, h4, h5, h6] <;> omega

theorem sum_map_range {M : Type} [AddCommMonoid M] (f : Nat → M) (m : Nat) :
    ((List.range m).map f).sum = ∑ i in Finset.range m, f i := by
  induction m with
  | zero => simp
  | succ m ih => simp [List.range_succ, Finset.sum_range_succ, ih]

theorem countP_range (p : Nat → Bool) (m : Nat) :
    (List.range m).countP p = ((Finset.range m).filter (fun i => p i = true)).card := by
  induction m with
  | zero => simp
  | succ m ih =>
    rw [List.range_succ, List.countP_append, ih, Finset.range_succ, Finset.filter_insert]
    by_cases h : p m = true
    · rw [if_pos h, Finset.card_insert_of_not_mem (by simp)]
      simp [h]
    · rw [if_neg h]
      simp [h]

theorem any_range (p : Nat → Bool) (m : Nat) :
    (List.range m).any p = decide (∃ i < m, p i = true) := by
  rw [Bool.eq_iff_iff]
  simp [List.any_eq_true]

theorem laterDups_eq (pw : List Int) (n i : Nat) :
    laterDups pw n i
      = ((Finset.range n).filter (fun j => i < j ∧ charAt pw i = charAt pw j)).card := by
  unfold laterDups
  rw [List.countP_eq_length_filter, ← List.toFinset_card_of_nodup
    ((List.nodup_range' _ _).filter _)]
  congr 1
  ext j
  simp only [List.mem_toFinset, List.mem_filter, List.mem_range', Finset.mem_filter,
    Finset.mem_range, decide_eq_true_eq]
  constructor
  · rintro ⟨⟨k, hk, rfl⟩, h⟩
    exact ⟨by omega, by omega, h⟩
  · rintro ⟨h1, h2, h⟩
    exact ⟨⟨j - (i + 1), by omega, by omega⟩, h⟩

theorem sum_laterDups (pw : List Int) :
    ∑ i in Finset.range (pw.length - 1), laterDups pw pw.length i = specDuplicates pw := by
  have hfull : ∑ i in Finset.range pw.length, laterDups pw pw.length i = specDuplicates pw := by
    unfold specDuplicates
    rw [Finset.card_filter, Finset.sum_product]
    refine Finset.sum_congr rfl (fun i _ => ?_)
    rw [laterDups_eq, Finset.card_filter]
  rw [← hfull]
  rcases Nat.eq_zero_or_pos pw.length with h | h
  · simp [h]
  · obtain ⟨m, hm⟩ : ∃ m, pw.length = m + 1 := ⟨pw.length - 1, by omega⟩
    rw [hm, Nat.add_sub_cancel, Finset.sum_range_succ]
    have : laterDups pw (m + 1) m = 0 := by simp [laterDups]
    rw [this]; simp

/-! ## Bounds on the three factors -/

theorem specRandomness_nonneg (s : List Int) : 0 ≤ specRandomness s := by
  unfold specRandomness
  exact Finset.sum_nonneg (fun i _ => by exact_mod_cast abs_nonneg _)

theorem specVariety_nonneg (s : List Int) : 0 ≤ specVariety s := by
  unfold specVariety
  positivity

theorem specPenalty_nonneg (s : List Int) : 0 ≤ specPenalty s := le_max_left _ _

theorem charAt_of_lt (s : List Int) (i : Nat) (h : i < s.length) : charAt s i = s[i] := by
  unfold charAt
  exact List.getD_eq_getElem _ _ h

theorem charAt_replicate (n : Nat) (c : Int) (i : Nat) (h : i < n) :
    charAt (List.replicate n c) i = c := by
  rw [charAt_of_lt _ _ (by simpa using h)]
  simp

theorem charAt_ne_of_nodup (s : List Int) (hs : s.Nodup) (i j : Nat) (hij : i < j)
    (hj : j < s.length) : charAt s i ≠ charAt s j := by
  rw [charAt_of_lt s i (by omega), charAt_of_lt s j hj]
  intro h
  have := (hs.getElem_inj_iff).mp h
  omega

/-- Some class is detected as soon as one character is classified. -/
theorem specClassCount_pos (s : List Int) (h : 2 ≤ s.length) : 1 ≤ specClassCount s := by
  unfold specClassCount
  have h0 : 0 < s.length - 1 := by omega
  rcases hu : isupper (charAt s 0) with _ | _
  · rcases hl : islower (charAt s 0) with _ | _
    · rcases hd : isdigit (charAt s 0) with _ | _
      · have : ∃ i < s.length - 1, (isupper (charAt s i) = false ∧
            islower (charAt s i) = false ∧ isdigit (charAt s i) = false) :=
          ⟨0, h0, hu, hl, hd⟩
        rw [if_pos this]; omega
      · have : ∃ i < s.length - 1, isdigit (charAt s i) = true := ⟨0, h0, hd⟩
        rw [if_pos this]; omega
    · have : ∃ i < s.length - 1, islower (charAt s i) = true := ⟨0, h0, hl⟩
      rw [if_pos this]; omega
  · have : ∃ i < s.length - 1, isupper (charAt s i) = true := ⟨0, h0, hu⟩
    rw [if_pos this]; omega

theorem specClassCount_le_four (s : List Int) : specClassCount s ≤ 4 := by
  unfold specClassCount
  split_ifs <;> omega

theorem specAdjacent_nodup (s : List Int) (hs : s.Nodup) : specAdjacent s = 0 := by
  unfold specAdjacent
  rw [Finset.card_eq_zero, Finset.filter_eq_empty_iff]
  intro i hi
  rw [Finset.mem_range] at hi
  exact charAt_ne_of_nodup s hs i (i + 1) (by omega) (by omega)

theorem specDuplicates_nodup (s : List Int) (hs : s.Nodup) : specDuplicates s = 0 := by
  unfold specDuplicates
  rw [Finset.card_eq_zero, Finset.filter_eq_empty_iff]
  rintro ⟨i, j⟩ hp ⟨hij, h⟩
  rw [Finset.mem_product, Finset.mem_range, Finset.mem_range] at hp
  exact charAt_ne_of_nodup s hs i j hij hp.2 h

theorem specPenalty_nodup (s : List Int) (hs : s.Nodup) : specPenalty s = 1 := by
  unfold specPenalty
  rw [specAdjacent_nodup s hs, specDuplicates_nodup s hs]
  norm_num

theorem specRandomness_replicate (n : Nat) (c : Int) :
    specRandomness (List.replicate n c) = 0 := by
  unfold specRandomness
  apply Finset.sum_eq_zero
  intro i hi
  rw [Finset.mem_range, List.length_replicate] at hi
  rw [charAt_replicate n c i (by omega), charAt_replicate n c (i + 1) (by omega)]
  simp

theorem specAdjacent_replicate (n : Nat) (c : Int) (h : 2 ≤ n) :
    1 ≤ specAdjacent (List.replicate n c) := by
  unfold specAdjacent
  rw [Nat.succ_le_iff, Finset.card_pos]
  refine ⟨0, ?_⟩
  rw [Finset.mem_filter, Finset.mem_range, List.length_replicate]
  exact ⟨by omega, by rw [charAt_replicate n c 0 (by omega), charAt_replicate n c 1 (by omega)]⟩

theorem specDuplicates_replicate (n : Nat) (c : Int) (h : 2 ≤ n) :
    1 ≤ specDuplicates (List.replicate n c) := by
  unfold specDuplicates
  rw [Nat.succ_le_iff, Finset.card_pos]
  refine ⟨(0, 1), ?_⟩
  rw [Finset.mem_filter, Finset.mem_product, Finset.mem_range, Finset.mem_range,
    List.length_replicate]
  exact ⟨⟨by omega, by omega⟩, by omega,
    by rw [charAt_replicate n c 0 (by omega), charAt_replicate n c 1 (by omega)]⟩

theorem count_exclusive_le_one (P1 P2 P3 P4 : Prop) [Decidable P1] [Decidable P2]
    [Decidable P3] [Decidable P4] (u l d : Bool) (h1 : P1 → u = true)
    (h2 : P2 → l = true ∧ u = false) (h3 : P3 → d = true ∧ u = false ∧ l = false)
    (h4 : P4 → u = false ∧ l = false ∧ d = false) :
    (if P1 then 1 else 0) + (if P2 then 1 else 0) + (if P3 then 1 else 0)
      + (if P4 then 1 else 0) ≤ 1 := by
  by_cases p1 : P1 <;> by_cases p2 : P2 <;> by_cases p3 : P3 <;> by_cases p4 : P4 <;>
    simp_all

theorem islower_imp (c : Int) (h : islower c = true) : isupper c = false := by
  have := islower_not_isupper c
  rw [h] at this
  simpa using this

theorem isdigit_imp (c : Int) (h : isdigit c = true) :
    isupper c = false ∧ islower c = false := by
  have := isdigit_not_alpha c
  rw [h] at this
  simpa using this

theorem specClassCount_replicate (n : Nat) (c : Int) :
    specClassCount (List.replicate n c) ≤ 1 := by
  have key : ∀ p : Int → Prop, (∃ i < (List.replicate n c).length - 1,
      p (charAt (List.replicate n c) i)) → p c := by
    rintro p ⟨i, hi, hp⟩
    rw [List.length_replicate] at hi
    rwa [charAt_replicate n c i (by omega)] at hp
  unfold specClassCount
  apply count_exclusive_le_one _ _ _ _ (isupper c) (islower c) (isdigit c)
  · exact key (fun x => isupper x = true)
  · intro h
    have := key (fun x => islower x = true) h
    exact ⟨this, islower_imp c this⟩
  · intro h
    have := key (fun x => isdigit x = true) h
    exact ⟨this, isdigit_imp c this⟩
  · exact key (fun x => isupper x = false ∧ islower x = false ∧ isdigit x = false)

/-! ## The loop of `updateParticle` -/

theorem clampChar_range (c : Int) : 33 ≤ clampChar c ∧ clampChar c ≤ 126 := by
  unfold clampChar
  split_ifs <;> omega

theorem charAt_set_self (s : List Int) (i : Nat) (c : Int) (h : i < s.length) :
    charAt (s.set i c) i = c := by
  unfold charAt
  rw [List.getD_eq_getElem?_getD, List.getElem?_set_self h]
  rfl

theorem charAt_set_ne (s : List Int) (i j : Nat) (c : Int) (h : i ≠ j) :
    charAt (s.set i c) j = charAt s j := by
  unfold charAt
  rw [List.getD_eq_getElem?_getD, List.getD_eq_getElem?_getD, List.getElem?_set_ne h]

theorem updateBody_length (rand : Nat → Nat) (pb gb : List Int) (w : ℚ)
    (st : List Int × ℚ × Nat) (i : Nat) :
    (updateBody rand pb gb w st i).1.length = st.1.length := by
  simp [updateBody]

theorem updateBody_set (rand : Nat → Nat) (pb gb : List Int) (w : ℚ)
    (st : List Int × ℚ × Nat) (i : Nat) :
    ∃ z : Int, (updateBody rand pb gb w st i).1 = st.1.set i (clampChar z) :=
  ⟨_, rfl⟩

/-- Invariant of the loop of `updateParticle` after `m` rounds: the string keeps its length
and every position already visited holds a code in `[33, 126]`. -/
theorem updateLoop_inv (rand : Nat → Nat) (pb gb : List Int) (w : ℚ)
    (st : List Int × ℚ × Nat) (m : Nat) :
    ((List.range m).foldl (updateBody rand pb gb w) st).1.length = st.1.length ∧
    ∀ j, j < m → j < st.1.length →
      33 ≤ charAt ((List.range m).foldl (updateBody rand pb gb w) st).1 j ∧
      charAt ((List.range m).foldl (updateBody rand pb gb w) st).1 j ≤ 126 := by
  induction m with
  | zero => exact ⟨rfl, fun j hj => absurd hj (Nat.not_lt_zero j)⟩
  | succ m ih =>
    rw [List.range_succ, List.foldl_append, List.foldl_cons, List.foldl_nil]
    obtain ⟨hlen, hrange⟩ := ih
    refine ⟨by rw [updateBody_length, hlen], fun j hj hjl => ?_⟩
    obtain ⟨z, hz⟩ := updateBody_set rand pb gb w
      ((List.range m).foldl (updateBody rand pb gb w) st) m
    rw [hz]
    by_cases hjm : j = m
    · subst hjm
      rw [charAt_set_self _ _ _ (by rw [hlen]; exact hjl)]
      exact clampChar_range z
    · rw [charAt_set_ne _ _ _ _ (fun h => hjm h.symm)]
      exact hrange j (by omega) hjl

theorem printable_of_charAt (s : List Int)
    (h : ∀ j, j < s.length → 33 ≤ charAt s j ∧ charAt s j ≤ 126) : Printable s := by
  intro c hc
  obtain ⟨j, hj, rfl⟩ := List.mem_iff_getElem.mp hc
  have := h j hj
  rwa [charAt_of_lt s j hj] at this

/-- The string left by the loop of `updateParticle`. -/
theorem updateParticle_password (rand : Nat → Nat) (k : Nat) (p : Particle) (gb : List Int)
    (w : ℚ) :
    (updateParticle rand k p gb w).1.password
      = ((List.range p.password.length).foldl (updateBody rand p.personalBest gb w)
          (p.password, p.velocity, k)).1 := by
  unfold updateParticle
  simp only []
  split_ifs <;> rfl

theorem updateParticle_printable (rand : Nat → Nat) (k : Nat) (p : Particle) (gb : List Int)
    (w : ℚ) : Printable (updateParticle rand k p gb w).1.password := by
  rw [updateParticle_password]
  obtain ⟨hlen, hrange⟩ := updateLoop_inv rand p.personalBest gb w
    (p.password, p.velocity, k) p.password.length
  apply printable_of_charAt
  intro j hj
  rw [hlen] at hj
  exact hrange j hj hj

theorem updateParticle_length (rand : Nat → Nat) (k : Nat) (p : Particle) (gb : List Int)
    (w : ℚ) : (updateParticle rand k p gb w).1.password.length = p.password.length := by
  rw [updateParticle_password]
  exact (updateLoop_inv rand p.personalBest gb w (p.password, p.velocity, k) _).1

theorem initializeParticle_some (rand : Nat → Nat) (k : Nat) (length : Int) (h : 0 ≤ length) :
    initializeParticle rand k length
      = some ({ password := (List.range length.toNat).map
                  (fun i => (33 : Int) + ((rand (k + i) % 94 : Nat) : Int)),
                fitness := calculateFitness ((List.range length.toNat).map
                  (fun i => (33 : Int) + ((rand (k + i) % 94 : Nat) : Int))),
                personalBest := (List.range length.toNat).map
                  (fun i => (33 : Int) + ((rand (k + i) % 94 : Nat) : Int)),
                personalBestFitness := calculateFitness ((List.range length.toNat).map
                  (fun i => (33 : Int) + ((rand (k + i) % 94 : Nat) : Int))),
                velocity := 0 }, k + length.toNat) := by
  unfold initializeParticle
  rw [if_neg (by omega)]

theorem initial_printable (rand : Nat → Nat) (k n : Nat) :
    Printable ((List.range n).map (fun i => (33 : Int) + ((rand (k + i) % 94 : Nat) : Int))) := by
  intro c hc
  rw [List.mem_map] at hc
  obtain ⟨i, _, rfl⟩ := hc
  have : rand (k + i) % 94 < 94 := Nat.mod_lt _ (by decide)
  omega

/-! ## `findBestParticle` -/

/-- Invariant of the loop of `findBestParticle` after the indices `1 .. m` have been
visited: the running index is the first one of maximal fitness among `0 .. m`. -/
theorem findBest_loop_inv (swarm : List Particle) (m : Nat) :
    (List.range' 1 m).foldl
        (fun bestIndex i =>
          if fitnessAt swarm i > fitnessAt swarm bestIndex then i else bestIndex) 0 ≤ m ∧
    (∀ i, i ≤ m → fitnessAt swarm i ≤ fitnessAt swarm ((List.range' 1 m).foldl
        (fun bestIndex i =>
          if fitnessAt swarm i > fitnessAt swarm bestIndex then i else bestIndex) 0)) ∧
    (∀ i, i < (List.range' 1 m).foldl
        (fun bestIndex i =>
          if fitnessAt swarm i > fitnessAt swarm bestIndex then i else bestIndex) 0 →
      fitnessAt swarm i < fitnessAt swarm ((List.range' 1 m).foldl
        (fun bestIndex i =>
          if fitnessAt swarm i > fitnessAt swarm bestIndex then i else bestIndex) 0)) := by
  induction m with
  | zero =>
    refine ⟨le_refl _, fun i hi => ?_, fun i hi => absurd hi (Nat.not_lt_zero i)⟩
    have : i = 0 := by omega
    subst this
    exact le_refl _
  | succ m ih =>
    rw [List.range'_1_concat, List.foldl_append, List.foldl_cons, List.foldl_nil]
    generalize (List.range' 1 m).foldl
        (fun bestIndex i =>
          if fitnessAt swarm i > fitnessAt swarm bestIndex then i else bestIndex) 0 = b at ih ⊢
    obtain ⟨hb, hmax, hfirst⟩ := ih
    by_cases hgt : fitnessAt swarm (1 + m) > fitnessAt swarm b
    · rw [if_pos hgt]
      refine ⟨by omega, fun i hi => ?_, fun i hi => ?_⟩
      · by_cases him : i = 1 + m
        · rw [him]
        · exact le_trans (hmax i (by omega)) hgt.le
      · exact lt_of_le_of_lt (hmax i (by omega)) hgt
    · rw [if_neg hgt]
      refine ⟨by omega, fun i hi => ?_, hfirst⟩
      by_cases him : i = 1 + m
      · rw [him]; exact not_lt.mp hgt
      · exact hmax i (by omega)

theorem findBestParticle_spec (swarm : List Particle) (numParticles : Int)
    (hn : 1 ≤ numParticles) (hlen : (swarm.length : Int) = numParticles) :
    findBestParticle swarm numParticles < swarm.length ∧
    (∀ i, i < swarm.length →
      fitnessAt swarm i ≤ fitnessAt swarm (findBestParticle swarm numParticles)) ∧
    (∀ i, i < findBestParticle swarm numParticles →
      fitnessAt swarm i < fitnessAt swarm (findBestParticle swarm numParticles)) := by
  obtain ⟨h1, h2, h3⟩ := findBest_loop_inv swarm (numParticles - 1).toNat
  have hm : (numParticles - 1).toNat = swarm.length - 1 := by omega
  unfold findBestParticle
  rw [hm] at h1 h2 h3 ⊢
  have hpos : 0 < swarm.length := by omega
  exact ⟨by omega, fun i hi => h2 i (by omega), h3⟩

/-! ## The personal best in `updateParticle` -/

theorem updateParticle_fitness (rand : Nat → Nat) (k : Nat) (p : Particle) (gb : List Int)
    (w : ℚ) :
    (updateParticle rand k p gb w).1.fitness
      = calculateFitness (updateParticle rand k p gb w).1.password := by
  unfold updateParticle
  simp only []
  split_ifs <;> rfl

theorem updateParticle_best_of_gt (rand : Nat → Nat) (k : Nat) (p : Particle) (gb : List Int)
    (w : ℚ) (h : (updateParticle rand k p gb w).1.fitness > p.personalBestFitness) :
    (updateParticle rand k p gb w).1.personalBest = (updateParticle rand k p gb w).1.password ∧
    (updateParticle rand k p gb w).1.personalBestFitness
      = (updateParticle rand k p gb w).1.fitness := by
  unfold updateParticle at h ⊢
  simp only [] at h ⊢
  split_ifs with hc
  · exact ⟨rfl, rfl⟩
  · rw [if_neg hc] at h
    exact absurd h hc

theorem updateParticle_best_of_not_gt (rand : Nat → Nat) (k : Nat) (p : Particle)
    (gb : List Int) (w : ℚ)
    (h : ¬ (updateParticle rand k p gb w).1.fitness > p.personalBestFitness) :
    (updateParticle rand k p gb w).1.personalBest = p.personalBest ∧
    (updateParticle rand k p gb w).1.personalBestFitness = p.personalBestFitness := by
  unfold updateParticle at h ⊢
  simp only [] at h ⊢
  split_ifs with hc
  · rw [if_pos hc] at h
    exact absurd hc h
  · exact ⟨rfl, rfl⟩

theorem updateParticle_best_mono (rand : Nat → Nat) (k : Nat) (p : Particle) (gb : List Int)
    (w : ℚ) :
    p.personalBestFitness ≤ (updateParticle rand k p gb w).1.personalBestFitness := by
  by_cases h : (updateParticle rand k p gb w).1.fitness > p.personalBestFitness
  · rw [(updateParticle_best_of_gt rand k p gb w h).2]
    exact h.le
  · rw [(updateParticle_best_of_not_gt rand k p gb w h).2]

theorem updateParticle_best_ge_fitness (rand : Nat → Nat) (k : Nat) (p : Particle)
    (gb : List Int) (w : ℚ) :
    (updateParticle rand k p gb w).1.fitness
      ≤ (updateParticle rand k p gb w).1.personalBestFitness := by
  by_cases h : (updateParticle rand k p gb w).1.fitness > p.personalBestFitness
  · rw [(updateParticle_best_of_gt rand k p gb w h).2]
  · rw [(updateParticle_best_of_not_gt rand k p gb w h).2]
    exact not_lt.mp h

/-! ## The swarm loops -/

theorem updateSwarm_length (rand : Nat → Nat) (gb : List Int) (w : ℚ) (ps : List Particle)
    (k : Nat) : (updateSwarm rand gb w ps k).1.length = ps.length := by
  induction ps generalizing k with
  | nil => rfl
  | cons p ps ih => simp [updateSwarm, ih]

/-- Every particle of the updated swarm is the result of `updateParticle` on the particle
at the same index. -/
theorem updateSwarm_getElem? (rand : Nat → Nat) (gb : List Int) (w : ℚ) (ps : List Particle)
    (k i : Nat) (p : Particle) (h : ps[i]? = some p) :
    ∃ k1, (updateSwarm rand gb w ps k).1[i]? = some (updateParticle rand k1 p gb w).1 := by
  induction ps generalizing k i with
  | nil => simp at h
  | cons q ps ih =>
    cases i with
    | zero =>
      simp only [List.getElem?_cons_zero, Option.some.injEq] at h
      subst h
      exact ⟨k, by simp [updateSwarm]⟩
    | succ i =>
      simp only [List.getElem?_cons_succ] at h
      obtain ⟨k1, hk1⟩ := ih (updateParticle rand k q gb w).2 i h
      exact ⟨k1, by simpa [updateSwarm] using hk1⟩

theorem updateSwarm_mem (rand : Nat → Nat) (gb : List Int) (w : ℚ) (ps : List Particle)
    (k : Nat) (q : Particle) (h : q ∈ (updateSwarm rand gb w ps k).1) :
    ∃ p ∈ ps, ∃ k1, q = (updateParticle rand k1 p gb w).1 := by
  obtain ⟨i, hi, rfl⟩ := List.mem_iff_getElem.mp h
  rw [updateSwarm_length] at hi
  obtain ⟨k1, hk1⟩ := updateSwarm_getElem? rand gb w ps k i ps[i] (List.getElem?_eq_getElem hi)
  refine ⟨ps[i], List.getElem_mem hi, k1, ?_⟩
  rw [List.getElem?_eq_getElem (by rw [updateSwarm_length]; exact hi)] at hk1
  exact Option.some.inj hk1

theorem initializeSwarm_some (rand : Nat → Nat) (length : Int) (h : 0 ≤ length) (k n : Nat) :
    ∃ swarm k1, initializeSwarm rand length k n = some (swarm, k1) ∧ swarm.length = n := by
  induction n with
  | zero => exact ⟨[], k, rfl, rfl⟩
  | succ n ih =>
    obtain ⟨swarm, k1, hsw, hlen⟩ := ih
    obtain ⟨p, k2, hp⟩ : ∃ p k2, initializeParticle rand k1 length = some (p, k2) :=
      ⟨_, _, initializeParticle_some rand k1 length h⟩
    exact ⟨swarm ++ [p], k2, by simp only [initializeSwarm, hsw, hp], by simp [hlen]⟩

theorem initializeSwarm_mem (rand : Nat → Nat) (length : Int) (k n : Nat)
    (swarm : List Particle) (k1 : Nat) (h : initializeSwarm rand length k n = some (swarm, k1))
    (p : Particle) (hp : p ∈ swarm) :
    ∃ k2 k3, initializeParticle rand k2 length = some (p, k3) := by
  induction n generalizing swarm k1 with
  | zero =>
    simp only [initializeSwarm, Option.some.injEq, Prod.mk.injEq] at h
    rw [← h.1] at hp
    simp at hp
  | succ n ih =>
    simp only [initializeSwarm] at h
    split at h
    · exact absurd h (by simp)
    · rename_i sw ka hsw
      split at h
      · exact absurd h (by simp)
      · rename_i q kb hq
        simp only [Option.some.injEq, Prod.mk.injEq] at h
        rw [← h.1, List.mem_append, List.mem_singleton] at hp
        rcases hp with hp | hp
        · exact ih sw ka hsw hp
        · exact ⟨ka, kb, by rw [hp]; exact hq⟩

theorem selectGlobalBest_some (swarm : List Particle) (numParticles : Int)
    (hn : 1 ≤ numParticles) (hlen : (swarm.length : Int) = numParticles) :
    ∃ p, swarm[findBestParticle swarm numParticles]? = some p ∧
      selectGlobalBest swarm numParticles = some p.password := by
  have hb := (findBestParticle_spec swarm numParticles hn hlen).1
  refine ⟨swarm[findBestParticle swarm numParticles], List.getElem?_eq_getElem hb, ?_⟩
  unfold selectGlobalBest
  rw [List.getElem?_eq_getElem hb]

theorem psoIteration_swarm (rand : Nat → Nat) (numParticles maxIterations : Int)
    (st s : SwarmState) (t : Nat) (h : psoIteration rand numParticles maxIterations st t = some s) :
    s.swarm = (updateSwarm rand st.globalBest (inertiaWeightAt maxIterations t)
      st.swarm st.k).1 ∧
    selectGlobalBest s.swarm numParticles = some s.globalBest := by
  unfold psoIteration at h
  simp only [] at h
  split at h
  · rename_i g hg
    simp only [Option.some.injEq] at h
    rw [← h]
    exact ⟨rfl, hg⟩
  · exact absurd h (by simp)

theorem psoIteration_some (rand : Nat → Nat) (numParticles maxIterations : Int)
    (st : SwarmState) (t : Nat) (hn : 1 ≤ numParticles)
    (hlen : (st.swarm.length : Int) = numParticles) :
    ∃ s, psoIteration rand numParticles maxIterations st t = some s ∧
      (s.swarm.length : Int) = numParticles := by
  have hl := updateSwarm_length rand st.globalBest (inertiaWeightAt maxIterations t)
    st.swarm st.k
  obtain ⟨p, _, hp⟩ := selectGlobalBest_some
    (updateSwarm rand st.globalBest (inertiaWeightAt maxIterations t) st.swarm st.k).1
    numParticles hn (by rw [hl]; exact hlen)
  unfold psoIteration
  simp only [hp]
  exact ⟨_, rfl, by simp only [hl]; exact hlen⟩

/-- The main loop never fails on a non-empty swarm: after any number of rounds there is a
state, holding as many particles as at the start. -/
theorem psoLoop_some (rand : Nat → Nat) (numParticles maxIterations : Int)
    (st : SwarmState) (hn : 1 ≤ numParticles)
    (hlen : (st.swarm.length : Int) = numParticles) (t : Nat) :
    ∃ s, psoLoop rand numParticles maxIterations st t = some s ∧
      (s.swarm.length : Int) = numParticles := by
  induction t with
  | zero => exact ⟨st, rfl, hlen⟩
  | succ t ih =>
    obtain ⟨s, hs, hsl⟩ := ih
    obtain ⟨s1, hs1, hs1l⟩ := psoIteration_some rand numParticles maxIterations s t hn hsl
    exact ⟨s1, by simp only [psoLoop, hs, hs1], hs1l⟩

theorem initialState_some (rand : Nat → Nat) (length numParticles : Int) (hl : 0 ≤ length)
    (hn : 1 ≤ numParticles) :
    ∃ st, initialState rand length numParticles = some st ∧
      (st.swarm.length : Int) = numParticles := by
  obtain ⟨swarm, k1, hsw, hlen⟩ := initializeSwarm_some rand length hl 0 numParticles.toNat
  have hlen1 : (swarm.length : Int) = numParticles := by omega
  obtain ⟨p, _, hp⟩ := selectGlobalBest_some swarm numParticles hn hlen1
  exact ⟨{ swarm := swarm, globalBest := p.password, k := k1 },
    by simp only [initialState, hsw, hp], hlen1⟩

theorem initialState_swarm (rand : Nat → Nat) (length numParticles : Int) (st : SwarmState)
    (h : initialState rand length numParticles = some st) :
    ∃ k1, initializeSwarm rand length 0 numParticles.toNat = some (st.swarm, k1) ∧
      selectGlobalBest st.swarm numParticles = some st.globalBest := by
  unfold initialState at h
  split at h
  · exact absurd h (by simp)
  · rename_i sw k1 hsw
    split at h
    · rename_i g hg
      simp only [Option.some.injEq] at h
      rw [← h]
      exact ⟨k1, hsw, hg⟩
    · exact absurd h (by simp)

/-- A property of particles that holds after `initializeParticle` and is kept by
`updateParticle` holds for every particle of every state of a run. -/
theorem swarm_invariant (Q : Particle → Prop) (rand : Nat → Nat)
    (hinit : ∀ k length p k1, initializeParticle rand k length = some (p, k1) → Q p)
    (hstep : ∀ k p gb w, Q p → Q (updateParticle rand k p gb w).1)
    (length numParticles maxIterations : Int) (st : SwarmState)
    (hst : initialState rand length numParticles = some st) (t : Nat) (s : SwarmState)
    (hs : psoLoop rand numParticles maxIterations st t = some s) :
    ∀ p ∈ s.swarm, Q p := by
  induction t generalizing s with
  | zero =>
    simp only [psoLoop, Option.some.injEq] at hs
    subst hs
    obtain ⟨k1, hsw, _⟩ := initialState_swarm rand length numParticles st hst
    intro p hp
    obtain ⟨k2, k3, hk⟩ := initializeSwarm_mem rand length 0 _ _ k1 hsw p hp
    exact hinit k2 length p k3 hk
  | succ t ih =>
    simp only [psoLoop] at hs
    split at hs
    · rename_i s0 hs0
      have hsw := (psoIteration_swarm rand numParticles maxIterations s0 s t hs).1
      intro p hp
      rw [hsw] at hp
      obtain ⟨q, hq, k1, rfl⟩ := updateSwarm_mem rand _ _ _ _ p hp
      exact hstep k1 q _ _ (ih s0 hs0 q hq)
    · exact absurd hs (by simp)

/-! ## Runs of the main loop -/

theorem psoLoop_succ (rand : Nat → Nat) (numParticles maxIterations : Int) (st s : SwarmState)
    (t : Nat) (hs : psoLoop rand numParticles maxIterations st t = some s) :
    psoLoop rand numParticles maxIterations st (t + 1)
      = psoIteration rand numParticles maxIterations s t := by
  simp only [psoLoop, hs]

/-- One round of the main loop never lowers the personal-best score of a particle. -/
theorem psoIteration_best_mono (rand : Nat → Nat) (numParticles maxIterations : Int)
    (s s1 : SwarmState) (t : Nat)
    (h : psoIteration rand numParticles maxIterations s t = some s1) (i : Nat) (p : Particle)
    (hp : s.swarm[i]? = some p) :
    ∃ p1, s1.swarm[i]? = some p1 ∧ p.personalBestFitness ≤ p1.personalBestFitness := by
  obtain ⟨k1, hk1⟩ := updateSwarm_getElem? rand s.globalBest
    (inertiaWeightAt maxIterations t) s.swarm s.k i p hp
  rw [← (psoIteration_swarm rand numParticles maxIterations s s1 t h).1] at hk1
  exact ⟨_, hk1, updateParticle_best_mono rand k1 p _ _⟩

theorem psoLoop_best_mono (rand : Nat → Nat) (numParticles maxIterations : Int)
    (st : SwarmState) (hn : 1 ≤ numParticles)
    (hlen : (st.swarm.length : Int) = numParticles) (t1 d : Nat) :
    ∃ s1 s2, psoLoop rand numParticles maxIterations st t1 = some s1 ∧
      psoLoop rand numParticles maxIterations st (t1 + d) = some s2 ∧
      ∀ (i : Nat) (p1 : Particle), s1.swarm[i]? = some p1 →
        ∃ p2 : Particle, s2.swarm[i]? = some p2 ∧ p1.personalBestFitness ≤ p2.personalBestFitness := by
  induction d with
  | zero =>
    obtain ⟨s1, hs1, _⟩ := psoLoop_some rand numParticles maxIterations st hn hlen t1
    exact ⟨s1, s1, hs1, hs1, fun i p1 hp => ⟨p1, hp, le_refl _⟩⟩
  | succ d ih =>
    obtain ⟨s1, s2, hs1, hs2, hmono⟩ := ih
    obtain ⟨s3, hs3, _⟩ := psoLoop_some rand numParticles maxIterations st hn hlen
      (t1 + d + 1)
    refine ⟨s1, s3, hs1, hs3, fun i p1 hp => ?_⟩
    obtain ⟨p2, hp2, h12⟩ := hmono i p1 hp
    rw [psoLoop_succ rand numParticles maxIterations st s2 (t1 + d) hs2] at hs3
    obtain ⟨p3, hp3, h23⟩ := psoIteration_best_mono rand numParticles maxIterations s2 s3
      (t1 + d) hs3 i p2 hp2
    exact ⟨p3, hp3, le_trans h12 h23⟩

/-- A property of particles that holds after `initializeParticle` and is kept by
`updateParticle` holds throughout every run with `length ≥ 0` and `numParticles ≥ 1`, and
such a run reaches every round. -/
theorem run_invariant (Q : Particle → Prop) (rand : Nat → Nat)
    (hinit : ∀ k length p k1, initializeParticle rand k length = some (p, k1) → Q p)
    (hstep : ∀ k p gb w, Q p → Q (updateParticle rand k p gb w).1)
    (length numParticles maxIterations : Int) (hl : 0 ≤ length) (hn : 1 ≤ numParticles) :
    ∃ st, initialState rand length numParticles = some st ∧
      ∀ t, ∃ s, psoLoop rand numParticles maxIterations st t = some s ∧
        (s.swarm.length : Int) = numParticles ∧ ∀ p ∈ s.swarm, Q p := by
  obtain ⟨st, hst, hlen⟩ := initialState_some rand length numParticles hl hn
  refine ⟨st, hst, fun t => ?_⟩
  obtain ⟨s, hs, hsl⟩ := psoLoop_some rand numParticles maxIterations st hn hlen t
  exact ⟨s, hs, hsl, swarm_invariant Q rand hinit hstep length numParticles maxIterations
    st hst t s hs⟩

theorem initializeParticle_eq (rand : Nat → Nat) (k : Nat) (length : Int) (p : Particle)
    (k1 : Nat) (h : initializeParticle rand k length = some (p, k1)) :
    p = freshParticle ((List.range length.toNat).map
      (fun i => (33 : Int) + ((rand (k + i) % 94 : Nat) : Int))) := by
  unfold initializeParticle at h
  split_ifs at h
  simp only [Option.some.injEq, Prod.mk.injEq] at h
  rw [← h.1]
  rfl

theorem freshParticle_consistent (s : List Int) : Consistent (freshParticle s) :=
  ⟨rfl, rfl, le_refl _⟩

theorem updateParticle_consistent (rand : Nat → Nat) (k : Nat) (p : Particle) (gb : List Int)
    (w : ℚ) (h : p.personalBestFitness = calculateFitness p.personalBest) :
    Consistent (updateParticle rand k p gb w).1 := by
  refine ⟨?_, updateParticle_fitness rand k p gb w,
    updateParticle_best_ge_fitness rand k p gb w⟩
  by_cases hc : (updateParticle rand k p gb w).1.fitness > p.personalBestFitness
  · obtain ⟨h1, h2⟩ := updateParticle_best_of_gt rand k p gb w hc
    rw [h1, h2]
    exact updateParticle_fitness rand k p gb w
  · obtain ⟨h1, h2⟩ := updateParticle_best_of_not_gt rand k p gb w hc
    rw [h1, h2]
    exact h

/-! ## The stored character in the loop of `updateParticle` -/

theorem toChar_of_range (z : Int) (h1 : -128 ≤ z) (h2 : z ≤ 127) : toChar z = z := by
  unfold toChar
  omega

theorem clampChar_eq (c : Int) : clampChar c = max 33 (min 126 c) := by
  unfold clampChar
  split_ifs <;> omega

/-- As long as `old + round(v)` fits the 8-bit `char`, the loop body of `updateParticle`
stores the clamped sum of the specification. -/
theorem updateBody_eq_spec (rand : Nat → Nat) (pb gb : List Int) (w : ℚ)
    (st : List Int × ℚ × Nat) (i : Nat) (hi : i < st.1.length)
    (hlo : -128 ≤ charAt st.1 i + cRound (w * st.2.1
      + 2 * ((rand st.2.2 : ℚ) / (RAND_MAX : ℚ)) * ((charAt pb i - charAt st.1 i : Int) : ℚ)
      + 2 * ((rand (st.2.2 + 1) : ℚ) / (RAND_MAX : ℚ))
          * ((charAt gb i - charAt st.1 i : Int) : ℚ)))
    (hhi : charAt st.1 i + cRound (w * st.2.1
      + 2 * ((rand st.2.2 : ℚ) / (RAND_MAX : ℚ)) * ((charAt pb i - charAt st.1 i : Int) : ℚ)
      + 2 * ((rand (st.2.2 + 1) : ℚ) / (RAND_MAX : ℚ))
          * ((charAt gb i - charAt st.1 i : Int) : ℚ)) ≤ 127) :
    charAt (updateBody rand pb gb w st i).1 i
      = specUpdateChar (charAt st.1 i) (charAt pb i) (charAt gb i) w st.2.1
          ((rand st.2.2 : ℚ) / (RAND_MAX : ℚ)) ((rand (st.2.2 + 1) : ℚ) / (RAND_MAX : ℚ)) := by
  unfold updateBody specUpdateChar
  simp only [PERSONAL_BEST_WEIGHT, GLOBAL_BEST_WEIGHT]
  rw [charAt_set_self _ _ _ hi, toChar_of_range _ hlo hhi, clampChar_eq]


/-! ## A particle sitting on its personal best and on the global best -/

theorem set_charAt_self (s : List Int) (i : Nat) (h : i < s.length) :
    s.set i (charAt s i) = s := by
  apply List.ext_getElem?
  intro j
  by_cases hj : i = j
  · subst hj
    rw [List.getElem?_set_self h, charAt_of_lt s i h, List.getElem?_eq_getElem h]
  · rw [List.getElem?_set_ne hj]

theorem cRound_zero : cRound 0 = 0 := by
  unfold cRound
  norm_num

theorem charAt_printable (s : List Int) (hs : Printable s) (i : Nat) (h : i < s.length) :
    33 ≤ charAt s i ∧ charAt s i ≤ 126 := by
  rw [charAt_of_lt s i h]
  exact hs _ (List.getElem_mem h)

theorem clampChar_toChar_printable (c : Int) (h : 33 ≤ c ∧ c ≤ 126) :
    clampChar (toChar c) = c := by
  unfold clampChar toChar
  split_ifs <;> omega

/-- With `personalBest = password = globalBest` and velocity `0`, the loop body of
`updateParticle` changes nothing but the call counter. -/
theorem updateBody_fixed (rand : Nat → Nat) (s : List Int) (hs : Printable s) (w : ℚ)
    (k i : Nat) (hi : i < s.length) :
    updateBody rand s s w (s, 0, k) i = (s, 0, k + 2) := by
  unfold updateBody
  simp only [sub_self, Int.cast_zero, mul_zero, add_zero, cRound_zero]
  rw [clampChar_toChar_printable _ (charAt_printable s hs i hi), set_charAt_self s i hi]

theorem updateLoop_fixed (rand : Nat → Nat) (s : List Int) (hs : Printable s) (w : ℚ)
    (k m : Nat) (hm : m ≤ s.length) :
    (List.range m).foldl (updateBody rand s s w) (s, 0, k) = (s, 0, k + 2 * m) := by
  induction m with
  | zero => rfl
  | succ m ih =>
    rw [List.range_succ, List.foldl_append, List.foldl_cons, List.foldl_nil,
      ih (by omega), updateBody_fixed rand s hs w _ m (by omega)]
    simp only [Prod.mk.injEq, true_and]
    ring

/-- A freshly initialised particle whose string is the global best is a fixed point of
`updateParticle`: string, velocity, fitness and personal best are unchanged. -/
theorem updateParticle_fixed (rand : Nat → Nat) (k : Nat) (s : List Int) (hs : Printable s)
    (w : ℚ) :
    updateParticle rand k (freshParticle s) s w = (freshParticle s, k + 2 * s.length) := by
  unfold updateParticle
  simp only [freshParticle, updateLoop_fixed rand s hs w k s.length (le_refl _),
    gt_iff_lt, lt_irrefl, if_false]

theorem initialString_printable (rand : Nat → Nat) (k n : Nat) :
    Printable (initialString rand k n) :=
  initial_printable rand k n

theorem initialString_length (rand : Nat → Nat) (k n : Nat) :
    (initialString rand k n).length = n := by
  simp [initialString]

theorem initializeParticle_fresh (rand : Nat → Nat) (k : Nat) (length : Int) (h : 0 ≤ length) :
    initializeParticle rand k length
      = some (freshParticle (initialString rand k length.toNat), k + length.toNat) :=
  initializeParticle_some rand k length h

/-- The first loop of `generatePassword` in closed form. -/
theorem initializeSwarm_eq (rand : Nat → Nat) (length : Int) (h : 0 ≤ length) (n : Nat) :
    initializeSwarm rand length 0 n
      = some (initialSwarm rand length.toNat n, n * length.toNat) := by
  induction n with
  | zero => simp [initializeSwarm, initialSwarm]
  | succ n ih =>
    simp only [initializeSwarm, ih, initializeParticle_fresh rand _ length h, initialSwarm,
      List.range_succ, List.map_append, List.map_cons, List.map_nil, Option.some.injEq,
      Prod.mk.injEq, true_and]
    ring

/-! ## A swarm of one -/

theorem findBestParticle_one (swarm : List Particle) : findBestParticle swarm 1 = 0 := by
  simp [findBestParticle]

theorem selectGlobalBest_singleton (p : Particle) :
    selectGlobalBest [p] 1 = some p.password := by
  simp [selectGlobalBest, findBestParticle_one]

theorem initialState_one (rand : Nat → Nat) (length : Int) (h : 0 ≤ length) :
    initialState rand length 1
      = some { swarm := [freshParticle (initialString rand 0 length.toNat)],
               globalBest := initialString rand 0 length.toNat, k := length.toNat } := by
  have hsw : initializeSwarm rand length 0 (1 : Int).toNat
      = some ([freshParticle (initialString rand 0 length.toNat)], length.toNat) := by
    have := initializeSwarm_eq rand length h 1
    simpa [initialSwarm, List.range_succ] using this
  unfold initialState
  rw [hsw]
  simp only [selectGlobalBest_singleton]
  rfl

theorem psoIteration_one (rand : Nat → Nat) (maxIterations : Int) (s : List Int)
    (hs : Printable s) (k t : Nat) :
    psoIteration rand 1 maxIterations
        { swarm := [freshParticle s], globalBest := s, k := k } t
      = some { swarm := [freshParticle s], globalBest := s, k := k + 2 * s.length } := by
  unfold psoIteration
  simp only [updateSwarm, updateParticle_fixed rand k s hs, selectGlobalBest_singleton]
  rfl

/-- The main loop on a swarm of one: after any number of rounds the state is the start
state, apart from the number of calls of `rand`. -/
theorem psoLoop_one (rand : Nat → Nat) (maxIterations : Int) (s : List Int)
    (hs : Printable s) (k t : Nat) :
    psoLoop rand 1 maxIterations { swarm := [freshParticle s], globalBest := s, k := k } t
      = some { swarm := [freshParticle s], globalBest := s, k := k + 2 * s.length * t } := by
  induction t with
  | zero => simp [psoLoop]
  | succ t ih =>
    simp only [psoLoop, ih, psoIteration_one rand maxIterations s hs, Option.some.injEq,
      SwarmState.mk.injEq, true_and]
    ring

theorem generatePassword_one (rand : Nat → Nat) (length maxIterations : Int)
    (h : 0 ≤ length) :
    generatePassword rand length 1 maxIterations = some (initialString rand 0 length.toNat) := by
  unfold generatePassword
  rw [initialState_one rand length h]
  simp only [psoLoop_one rand maxIterations _ (initialString_printable rand 0 length.toNat)]

/-! ## Lengths of the strings of a run -/

theorem swarm_invariant_at (Q : Particle → Prop) (rand : Nat → Nat) (length : Int)
    (hinit : ∀ k p k1, initializeParticle rand k length = some (p, k1) → Q p)
    (hstep : ∀ k p gb w, Q p → Q (updateParticle rand k p gb w).1)
    (numParticles maxIterations : Int) (st : SwarmState)
    (hst : initialState rand length numParticles = some st) (t : Nat) (s : SwarmState)
    (hs : psoLoop rand numParticles maxIterations st t = some s) :
    ∀ p ∈ s.swarm, Q p := by
  induction t generalizing s with
  | zero =>
    simp only [psoLoop, Option.some.injEq] at hs
    subst hs
    obtain ⟨k1, hsw, _⟩ := initialState_swarm rand length numParticles st hst
    intro p hp
    obtain ⟨k2, k3, hk⟩ := initializeSwarm_mem rand length 0 _ _ k1 hsw p hp
    exact hinit k2 p k3 hk
  | succ t ih =>
    simp only [psoLoop] at hs
    split at hs
    · rename_i s0 hs0
      have hsw := (psoIteration_swarm rand numParticles maxIterations s0 s t hs).1
      intro p hp
      rw [hsw] at hp
      obtain ⟨q, hq, k1, rfl⟩ := updateSwarm_mem rand _ _ _ _ p hp
      exact hstep k1 q _ _ (ih s0 hs0 q hq)
    · exact absurd hs (by simp)

theorem selectGlobalBest_mem (swarm : List Particle) (numParticles : Int) (g : List Int)
    (h : selectGlobalBest swarm numParticles = some g) : ∃ p ∈ swarm, p.password = g := by
  unfold selectGlobalBest at h
  split at h
  · rename_i p hp
    simp only [Option.some.injEq] at h
    exact ⟨p, List.getElem?_mem hp, h⟩
  · exact absurd h (by simp)

/-- In every state of a run the global best is the current string of a particle. -/
theorem psoLoop_globalBest (rand : Nat → Nat) (length numParticles maxIterations : Int)
    (st : SwarmState) (hst : initialState rand length numParticles = some st) (t : Nat)
    (s : SwarmState) (hs : psoLoop rand numParticles maxIterations st t = some s) :
    selectGlobalBest s.swarm numParticles = some s.globalBest := by
  cases t with
  | zero =>
    simp only [psoLoop, Option.some.injEq] at hs
    subst hs
    obtain ⟨_, _, h⟩ := initialState_swarm rand length numParticles st hst
    exact h
  | succ t =>
    simp only [psoLoop] at hs
    split at hs
    · rename_i s0 _
      exact (psoIteration_swarm rand numParticles maxIterations s0 s t hs).2
    · exact absurd hs (by simp)

theorem updateParticle_best_cases (rand : Nat → Nat) (k : Nat) (p : Particle) (gb : List Int)
    (w : ℚ) :
    (updateParticle rand k p gb w).1.personalBest = (updateParticle rand k p gb w).1.password ∨
    (updateParticle rand k p gb w).1.personalBest = p.personalBest := by
  by_cases h : (updateParticle rand k p gb w).1.fitness > p.personalBestFitness
  · exact Or.inl (updateParticle_best_of_gt rand k p gb w h).1
  · exact Or.inr (updateParticle_best_of_not_gt rand k p gb w h).1

/-- Throughout a run with `length ≥ 0` and `numParticles ≥ 1` every round is reached, and
the current string and the personal best of every particle, and the global best, are
printable strings of exactly `length` characters. -/
theorem run_wellformed (rand : Nat → Nat) (length numParticles maxIterations : Int)
    (hl : 0 ≤ length) (hn : 1 ≤ numParticles) :
    ∃ st, initialState rand length numParticles = some st ∧
      ∀ t, ∃ s, psoLoop rand numParticles maxIterations st t = some s ∧
        (s.swarm.length : Int) = numParticles ∧
        s.globalBest.length = length.toNat ∧ Printable s.globalBest ∧
        ∀ p ∈ s.swarm, p.password.length = length.toNat ∧
          p.personalBest.length = length.toNat ∧
          Printable p.password ∧ Printable p.personalBest := by
  obtain ⟨st, hst, hlen⟩ := initialState_some rand length numParticles hl hn
  refine ⟨st, hst, fun t => ?_⟩
  obtain ⟨s, hs, hsl⟩ := psoLoop_some rand numParticles maxIterations st hn hlen t
  have hall := swarm_invariant_at
    (fun p => p.password.length = length.toNat ∧ p.personalBest.length = length.toNat ∧
      Printable p.password ∧ Printable p.personalBest) rand length
    (fun k p k1 h => by
      rw [initializeParticle_eq rand k length p k1 h]
      exact ⟨initialString_length rand k _, initialString_length rand k _,
        initial_printable rand k _, initial_printable rand k _⟩)
    (fun k p gb w hq => by
      obtain ⟨h1, h2, _, h4⟩ := hq
      have hp := updateParticle_printable rand k p gb w
      have hlen1 := updateParticle_length rand k p gb w
      refine ⟨by rw [hlen1, h1], ?_, hp, ?_⟩
      · rcases updateParticle_best_cases rand k p gb w with h | h
        · rw [h, hlen1, h1]
        · rw [h, h2]
      · rcases updateParticle_best_cases rand k p gb w with h | h
        · rw [h]; exact hp
        · rw [h]; exact h4)
    numParticles maxIterations st hst t s hs
  obtain ⟨p, hp, hg⟩ := selectGlobalBest_mem s.swarm numParticles s.globalBest
    (psoLoop_globalBest rand length numParticles maxIterations st hst t s hs)
  obtain ⟨h1, _, h3, _⟩ := hall p hp
  exact ⟨s, hs, hsl, by rw [← hg]; exact h1, by rw [← hg]; exact h3, hall⟩

theorem generatePassword_some (rand : Nat → Nat) (length numParticles maxIterations : Int)
    (hl : 0 ≤ length) (hn : 1 ≤ numParticles) :
    ∃ g, generatePassword rand length numParticles maxIterations = some g ∧
      g.length = length.toNat ∧ Printable g := by
  obtain ⟨st, hst, hall⟩ := run_wellformed rand length numParticles maxIterations hl hn
  obtain ⟨s, hs, _, hg, hp, _⟩ := hall maxIterations.toNat
  exact ⟨s.globalBest, by simp only [generatePassword, hst, hs], hg, hp⟩

/-! ## The start state in closed form -/

theorem initialSwarm_length (rand : Nat → Nat) (length n : Nat) :
    (initialSwarm rand length n).length = n := by
  simp [initialSwarm]

theorem initialSwarm_getElem? (rand : Nat → Nat) (length n j : Nat) (hj : j < n) :
    (initialSwarm rand length n)[j]?
      = some (freshParticle (initialString rand (j * length) length)) := by
  simp [initialSwarm, List.getElem?_map, List.getElem?_range hj]

theorem fitnessAt_initialSwarm (rand : Nat → Nat) (length n j : Nat) (hj : j < n) :
    fitnessAt (initialSwarm rand length n) j
      = calculateFitness (initialString rand (j * length) length) := by
  unfold fitnessAt
  rw [initialSwarm_getElem? rand length n j hj]
  rfl

/-- The variables of `generatePassword` when its main loop starts, in closed form: the
global best is the start string of the first particle of maximal start fitness. -/
theorem initialState_eq (rand : Nat → Nat) (length numParticles : Int) (hl : 0 ≤ length)
    (hn : 1 ≤ numParticles) :
    findBestParticle (initialSwarm rand length.toNat numParticles.toNat) numParticles
      < numParticles.toNat ∧
    initialState rand length numParticles
      = some { swarm := initialSwarm rand length.toNat numParticles.toNat,
               globalBest := initialString rand
                 (findBestParticle (initialSwarm rand length.toNat numParticles.toNat)
                   numParticles * length.toNat) length.toNat,
               k := numParticles.toNat * length.toNat } := by
  have hlen : ((initialSwarm rand length.toNat numParticles.toNat).length : Int)
      = numParticles := by
    rw [initialSwarm_length]; omega
  have hb := (findBestParticle_spec _ numParticles hn hlen).1
  rw [initialSwarm_length] at hb
  refine ⟨hb, ?_⟩
  unfold initialState
  rw [initializeSwarm_eq rand length hl]
  simp only [selectGlobalBest, initialSwarm_getElem? rand _ _ _ hb]
  rfl

/-! ## The random coefficients and the inertia weight -/

theorem RAND_MAX_pos : (0 : ℚ) < (RAND_MAX : ℚ) := by
  unfold RAND_MAX
  norm_num

/-- The velocity computed by the loop body of `updateParticle`, written with the two
random coefficients. -/
theorem updateBody_velocity (rand : Nat → Nat) (pb gb : List Int) (w : ℚ)
    (st : List Int × ℚ × Nat) (i : Nat) :
    (updateBody rand pb gb w st i).2.1
      = w * st.2.1
        + 2 * randomCoefficient (rand st.2.2) * ((charAt pb i - charAt st.1 i : Int) : ℚ)
        + 2 * randomCoefficient (rand (st.2.2 + 1))
            * ((charAt gb i - charAt st.1 i : Int) : ℚ) := rfl

theorem randomCoefficient_range (n : Nat) (h : n ≤ RAND_MAX) :
    0 ≤ randomCoefficient n ∧ randomCoefficient n ≤ 1 ∧
    (randomCoefficient n < 1 ↔ n < RAND_MAX) := by
  unfold randomCoefficient
  have hpos := RAND_MAX_pos
  refine ⟨by positivity, ?_, ?_⟩
  · rw [div_le_one hpos]
    exact_mod_cast h
  · rw [div_lt_one hpos]
    exact_mod_cast Iff.rfl

theorem zero_not_mem_of_printable (s : List Int) (hs : Printable s) : (0 : Int) ∉ s := by
  intro h
  have := hs 0 h
  omega

theorem specVariety_ge (s : List Int) (h : 2 ≤ s.length) : 1 / 4 ≤ specVariety s := by
  unfold specVariety
  have : (1 : ℚ) ≤ (specClassCount s : ℚ) := by exact_mod_cast specClassCount_pos s h
  linarith

theorem specPenalty_eq_zero_iff (s : List Int) :
    specPenalty s = 0
      ↔ 1 ≤ (1 / 5) * (specAdjacent s : ℚ) + (1 / 20) * (specDuplicates s : ℚ) := by
  unfold specPenalty
  constructor
  · intro h
    have := le_max_right (0 : ℚ)
      (1 - (1 / 5) * (specAdjacent s : ℚ) - (1 / 20) * (specDuplicates s : ℚ))
    rw [h] at this
    linarith
  · intro h
    exact max_eq_left (by linarith)

/-! ## The loops of `calculateFitness` in binary64 -/

theorem fl_quarter : fl (1 / 4) = 1 / 4 := by decide!

theorem fl_fifth : fl (1 / 5) = 7205759403792794 / 2 ^ 55 := by decide!

theorem fl_twentieth : fl (1 / 20) = 7205759403792794 / 2 ^ 57 := by decide!

theorem stepAmount_eq (u : Nat) (hu : u = 1 ∨ u = 4) :
    stepAmount u = (u : ℚ) * (7205759403792794 / 2 ^ 57) := by
  unfold stepAmount
  rcases hu with h | h <;> subst h
  · rw [if_neg (by decide), fl_twentieth]; norm_num
  · rw [if_pos rfl, fl_fifth]; norm_num

theorem subtractAll_append (xs ys : List Nat) (p : ℚ) :
    subtractAll (xs ++ ys) p = subtractAll ys (subtractAll xs p) := by
  unfold subtractAll
  rw [List.foldl_append]

theorem fitnessInner_foldl (pw : List Int) (i : Nat) (js : List Nat) (p : ℚ) :
    js.foldl (fitnessInnerBody pw i) p
      = subtractAll ((js.filter (fun j => decide (charAt pw i = charAt pw j))).map
          (fun _ => 1)) p := by
  induction js generalizing p with
  | nil => rfl
  | cons j js ih =>
    rw [List.foldl_cons, ih]
    unfold fitnessInnerBody
    by_cases h : charAt pw i = charAt pw j
    · simp [h, subtractAll, stepAmount]
    · simp [h]

/-- One round of the outer loop subtracts the steps of that round. -/
theorem fitnessRound (pw : List Int) (n i : Nat) (p : ℚ) :
    (List.range' (i + 1) (n - (i + 1))).foldl (fitnessInnerBody pw i)
        (if charAt pw i = charAt pw (i + 1) then fl (p - fl (1 / 5)) else p)
      = subtractAll (penaltySteps pw n i) p := by
  rw [fitnessInner_foldl]
  unfold penaltySteps
  rw [subtractAll_append]
  by_cases h : charAt pw i = charAt pw (i + 1)
  · simp [h, subtractAll, stepAmount]
  · simp [h, subtractAll]

theorem fitnessBody_foldl (pw : List Int) (n : Nat) (l : List Nat) (v : FitnessVars) :
    l.foldl (fitnessBody pw n) v =
      { randomness := l.foldl (fun r i =>
          fl (r + fl ((|charAt pw (i + 1) - charAt pw i| : Int) : ℚ))) v.randomness,
        repetitionPenalty :=
          subtractAll ((l.map (penaltySteps pw n)).flatten) v.repetitionPenalty,
        hasUppercase := v.hasUppercase || l.any (fun i => isupper (charAt pw i)),
        hasLowercase := v.hasLowercase ||
          l.any (fun i => !isupper (charAt pw i) && islower (charAt pw i)),
        hasNumber := v.hasNumber || l.any (fun i =>
          !isupper (charAt pw i) && !islower (charAt pw i) && isdigit (charAt pw i)),
        hasSymbol := v.hasSymbol || l.any (fun i =>
          !isupper (charAt pw i) && !islower (charAt pw i) && !isdigit (charAt pw i)) } := by
  induction l generalizing v with
  | nil => simp [subtractAll]
  | cons i l ih =>
    rw [List.foldl_cons, ih]
    simp only [fitnessBody, fitnessRound, List.map_cons, List.flatten_cons, subtractAll_append,
      List.any_cons, List.foldl_cons]
    rcases hu : isupper (charAt pw i) <;> rcases hl : islower (charAt pw i) <;>
      rcases hd : isdigit (charAt pw i) <;> simp

theorem fitnessLoop_flags (pw : List Int) :
    (fitnessLoop pw).hasUppercase
        = decide (∃ i < pw.length - 1, isupper (charAt pw i) = true) ∧
    (fitnessLoop pw).hasLowercase
        = decide (∃ i < pw.length - 1, islower (charAt pw i) = true) ∧
    (fitnessLoop pw).hasNumber
        = decide (∃ i < pw.length - 1, isdigit (charAt pw i) = true) ∧
    (fitnessLoop pw).hasSymbol
        = decide (∃ i < pw.length - 1, (isupper (charAt pw i) = false ∧
          islower (charAt pw i) = false ∧ isdigit (charAt pw i) = false)) := by
  unfold fitnessLoop
  rw [fitnessBody_foldl]
  simp only [islower_not_isupper, isdigit_not_alpha, any_range, fitnessInit, Bool.false_or]
  refine ⟨trivial, trivial, trivial, ?_⟩
  simp [and_assoc]

theorem fitnessLoop_penalty (pw : List Int) :
    (fitnessLoop pw).repetitionPenalty = subtractAll (allSteps pw) 1 := by
  unfold fitnessLoop
  rw [fitnessBody_foldl]
  rfl

theorem fitnessLoop_randomness (pw : List Int) :
    (fitnessLoop pw).randomness
      = (List.range (pw.length - 1)).foldl (fun r i =>
          fl (r + fl ((|charAt pw (i + 1) - charAt pw i| : Int) : ℚ))) 0 := by
  unfold fitnessLoop
  rw [fitnessBody_foldl]
  rfl

theorem varietyOf_eq (v : FitnessVars) :
    varietyOf v = (1 / 4) * (((if v.hasUppercase = true then 1 else 0)
      + (if v.hasLowercase = true then 1 else 0) + (if v.hasNumber = true then 1 else 0)
      + (if v.hasSymbol = true then 1 else 0) : Nat) : ℚ) := by
  have h1 : fl ((0 : ℚ) + 1 / 4) = 1 / 4 := by decide!
  have h2 : fl ((1 : ℚ) / 4 + 1 / 4) = 1 / 2 := by decide!
  have h3 : fl ((1 : ℚ) / 2 + 1 / 4) = 3 / 4 := by decide!
  have h4 : fl ((3 : ℚ) / 4 + 1 / 4) = 1 := by decide!
  unfold varietyOf
  rcases hu : v.hasUppercase <;> rcases hl : v.hasLowercase <;> rcases hn : v.hasNumber <;>
    rcases hs : v.hasSymbol <;>
    simp only [fl_quarter, h1, h2, h3, h4, if_true, if_false, Bool.false_eq_true] <;> norm_num

theorem varietyOf_fitnessLoop (s : List Int) :
    varietyOf (fitnessLoop s) = specVariety s := by
  obtain ⟨hu, hl, hn, hs⟩ := fitnessLoop_flags s
  rw [varietyOf_eq, hu, hl, hn, hs]
  unfold specVariety specClassCount
  simp only [decide_eq_true_eq]

/-! ## The repetition penalty in binary64 -/

theorem penaltySteps_units (pw : List Int) (n i : Nat) :
    ∀ u ∈ penaltySteps pw n i, u = 1 ∨ u = 4 := by
  intro u hu
  unfold penaltySteps at hu
  rw [List.mem_append] at hu
  rcases hu with h | h
  · split_ifs at h
    · rw [List.mem_singleton] at h
      exact Or.inr h
    · simp at h
  · rw [List.mem_map] at h
    obtain ⟨_, _, h1⟩ := h
    exact Or.inl h1.symm

theorem penaltySteps_sum (pw : List Int) (n i : Nat) :
    (penaltySteps pw n i).sum
      = (if charAt pw i = charAt pw (i + 1) then 4 else 0) + laterDups pw n i := by
  unfold penaltySteps laterDups
  rw [List.sum_append, List.map_const', List.sum_replicate, List.countP_eq_length_filter]
  split_ifs <;> simp

theorem allSteps_units (pw : List Int) : ∀ u ∈ allSteps pw, u = 1 ∨ u = 4 := by
  intro u hu
  unfold allSteps at hu
  rw [List.mem_flatten] at hu
  obtain ⟨l, hl, hul⟩ := hu
  rw [List.mem_map] at hl
  obtain ⟨i, _, rfl⟩ := hl
  exact penaltySteps_units pw pw.length i u hul

theorem sum_map_add (l : List Nat) (f g : Nat → Nat) :
    (l.map (fun i => f i + g i)).sum = (l.map f).sum + (l.map g).sum := by
  induction l with
  | nil => rfl
  | cons a l ih => simp only [List.map_cons, List.sum_cons, ih]; omega

theorem sum_map_ite (l : List Nat) (p : Nat → Prop) [DecidablePred p] :
    (l.map (fun i => if p i then 4 else 0)).sum = 4 * l.countP (fun i => decide (p i)) := by
  induction l with
  | nil => rfl
  | cons a l ih =>
    simp only [List.map_cons, List.sum_cons, ih, List.countP_cons]
    by_cases h : p a
    · simp only [h, if_true, decide_True]; omega
    · simp only [h, if_false, decide_False, Bool.false_eq_true]; omega

/-- The units subtracted in total: four per adjacent equal pair, one per equal pair. -/
theorem allSteps_sum (pw : List Int) :
    (allSteps pw).sum = 4 * specAdjacent pw + specDuplicates pw := by
  unfold allSteps
  rw [List.sum_flatten, List.map_map]
  have : (List.sum ∘ penaltySteps pw pw.length)
      = fun i => (if charAt pw i = charAt pw (i + 1) then 4 else 0)
          + laterDups pw pw.length i := by
    funext i
    exact penaltySteps_sum pw pw.length i
  rw [this, sum_map_add, sum_map_ite, countP_range, sum_map_range, sum_laterDups]
  simp [specAdjacent]

theorem subtract_step (u : Nat) (hu : u = 1 ∨ u = 4) (K0 : Nat) (p0 : ℚ)
    (h0 : |p0 - (1 - (K0 : ℚ) * (7205759403792794 / 2 ^ 57))| ≤ (K0 : ℚ) / 2 ^ 53)
    (hK : K0 + u ≤ 24) :
    |fl (p0 - stepAmount u) - (1 - ((K0 + u : Nat) : ℚ) * (7205759403792794 / 2 ^ 57))|
      ≤ ((K0 + u : Nat) : ℚ) / 2 ^ 53 := by
  have hK0 : (0 : ℚ) ≤ (K0 : ℚ) := by positivity
  have hK24 : (K0 : ℚ) ≤ 24 := by exact_mod_cast (by omega : K0 ≤ 24)
  have herr := fl_error (p0 - stepAmount u)
  rw [stepAmount_eq u hu] at herr ⊢
  rw [abs_le] at h0
  have habs : |p0 - (u : ℚ) * (7205759403792794 / 2 ^ 57)| ≤ 1 := by
    rw [abs_le]
    rcases hu with h | h <;> subst h <;> constructor <;> norm_num <;> linarith [h0.1, h0.2]
  have herr1 : |fl (p0 - (u : ℚ) * (7205759403792794 / 2 ^ 57))
      - (p0 - (u : ℚ) * (7205759403792794 / 2 ^ 57))| ≤ 1 / 2 ^ 53 :=
    le_trans herr (div_le_div_of_nonneg_right habs (by positivity))
  rw [abs_le] at herr1 ⊢
  push_cast
  rcases hu with h | h <;> subst h <;> constructor <;> norm_num at herr1 ⊢ <;>
    linarith [h0.1, h0.2, herr1.1, herr1.2]

theorem subtractAll_close (steps : List Nat) (hs : ∀ u ∈ steps, u = 1 ∨ u = 4) (K0 : Nat)
    (p0 : ℚ)
    (h0 : |p0 - (1 - (K0 : ℚ) * (7205759403792794 / 2 ^ 57))| ≤ (K0 : ℚ) / 2 ^ 53)
    (hK : K0 + steps.sum ≤ 24) :
    |subtractAll steps p0
        - (1 - ((K0 + steps.sum : Nat) : ℚ) * (7205759403792794 / 2 ^ 57))|
      ≤ ((K0 + steps.sum : Nat) : ℚ) / 2 ^ 53 := by
  induction steps generalizing K0 p0 with
  | nil => simpa [subtractAll] using h0
  | cons u us ih =>
    have hu := hs u (List.mem_cons_self _ _)
    rw [List.sum_cons] at hK ⊢
    have h1 := subtract_step u hu K0 p0 h0 (by omega)
    have := ih (fun v hv => hs v (List.mem_cons_of_mem _ hv)) (K0 + u)
      (fl (p0 - stepAmount u)) h1 (by omega)
    rw [Nat.add_assoc] at this
    exact this

theorem stepAmount_pos (u : Nat) (hu : u = 1 ∨ u = 4) : 0 < stepAmount u := by
  rw [stepAmount_eq u hu]
  rcases hu with h | h <;> subst h <;> norm_num

theorem subtractAll_neg (steps : List Nat) (hs : ∀ u ∈ steps, u = 1 ∨ u = 4) (p0 : ℚ)
    (h : p0 < 0) : subtractAll steps p0 < 0 := by
  induction steps generalizing p0 with
  | nil => exact h
  | cons u us ih =>
    have hu := stepAmount_pos u (hs u (List.mem_cons_self _ _))
    exact ih (fun v hv => hs v (List.mem_cons_of_mem _ hv)) _ (fl_neg _ (by linarith))

theorem subtractAll_clamped (steps : List Nat) (hs : ∀ u ∈ steps, u = 1 ∨ u = 4) (K0 : Nat)
    (p0 : ℚ)
    (h0 : |p0 - (1 - (K0 : ℚ) * (7205759403792794 / 2 ^ 57))| ≤ (K0 : ℚ) / 2 ^ 53)
    (hK0 : K0 ≤ 20) (hK : 21 ≤ K0 + steps.sum) : subtractAll steps p0 < 0 := by
  induction steps generalizing K0 p0 with
  | nil => simp at hK; omega
  | cons u us ih =>
    have hu := hs u (List.mem_cons_self _ _)
    have hrest : ∀ v ∈ us, v = 1 ∨ v = 4 := fun v hv => hs v (List.mem_cons_of_mem _ hv)
    rw [List.sum_cons] at hK
    have h1 := subtract_step u hu K0 p0 h0 (by omega)
    by_cases h21 : 21 ≤ K0 + u
    · apply subtractAll_neg us hrest
      rw [abs_le] at h1
      have ha : (21 : ℚ) ≤ ((K0 + u : Nat) : ℚ) := by exact_mod_cast h21
      have hb : ((K0 + u : Nat) : ℚ) ≤ 24 := by exact_mod_cast (by omega : K0 + u ≤ 24)
      linarith [h1.2]
    · exact ih hrest (K0 + u) _ h1 (by omega) (by omega)

/-- While at most 24 units are subtracted, the rounded penalty stays within `K * 2 ^ (-53)`
of `1 - K * fl 0.05`. -/
theorem penalty_close (s : List Int) (hK : 4 * specAdjacent s + specDuplicates s ≤ 24) :
    |(fitnessLoop s).repetitionPenalty
        - (1 - ((4 * specAdjacent s + specDuplicates s : Nat) : ℚ)
            * (7205759403792794 / 2 ^ 57))|
      ≤ ((4 * specAdjacent s + specDuplicates s : Nat) : ℚ) / 2 ^ 53 := by
  have h := subtractAll_close (allSteps s) (allSteps_units s) 0 1 (by simp)
    (by rw [allSteps_sum]; omega)
  rw [allSteps_sum, Nat.zero_add] at h
  rw [fitnessLoop_penalty]
  exact h

/-- As soon as 21 units are subtracted the rounded penalty is negative. -/
theorem penalty_neg (s : List Int) (hK : 21 ≤ 4 * specAdjacent s + specDuplicates s) :
    (fitnessLoop s).repetitionPenalty < 0 := by
  rw [fitnessLoop_penalty]
  exact subtractAll_clamped (allSteps s) (allSteps_units s) 0 1 (by simp) (by omega)
    (by rw [allSteps_sum]; omega)

/-! ## The score in binary64 -/

theorem fl_int (z : Int) (hz : |z| < 2 ^ 53) : fl (z : ℚ) = (z : ℚ) := by
  simpa using fl_exact z 0 hz

theorem randomness_fold_nonneg (pw : List Int) (l : List Nat) (r : ℚ) (hr : 0 ≤ r) :
    0 ≤ l.foldl (fun r i =>
      fl (r + fl ((|charAt pw (i + 1) - charAt pw i| : Int) : ℚ))) r := by
  induction l generalizing r with
  | nil => exact hr
  | cons i l ih =>
    rw [List.foldl_cons]
    apply ih
    exact fl_nonneg _ (add_nonneg hr (fl_nonneg _ (by exact_mod_cast abs_nonneg _)))

theorem fitnessLoop_randomness_nonneg (s : List Int) : 0 ≤ (fitnessLoop s).randomness := by
  rw [fitnessLoop_randomness]
  exact randomness_fold_nonneg s _ 0 (le_refl _)

/-- While the partial sums stay below `2 ^ 53` the additions to `randomness` are exact. -/
theorem randomness_fold_exact (pw : List Int) (l : List Nat) (r0 : Int) (hr0 : 0 ≤ r0)
    (hd : ∀ i ∈ l, |charAt pw (i + 1) - charAt pw i| ≤ 93)
    (hb : r0 + 93 * (l.length : Int) < 2 ^ 53) :
    l.foldl (fun r i =>
        fl (r + fl ((|charAt pw (i + 1) - charAt pw i| : Int) : ℚ))) (r0 : ℚ)
      = ((r0 + (l.map (fun i => |charAt pw (i + 1) - charAt pw i|)).sum : Int) : ℚ) := by
  induction l generalizing r0 with
  | nil => simp
  | cons i l ih =>
    have hdi := hd i (List.mem_cons_self _ _)
    have hnn : 0 ≤ |charAt pw (i + 1) - charAt pw i| := abs_nonneg _
    rw [List.length_cons] at hb
    push_cast at hb
    rw [List.foldl_cons, fl_int _ (by rw [abs_abs]; omega), ← Int.cast_add,
      fl_int _ (by rw [abs_of_nonneg (by omega)]; omega),
      ih (r0 + |charAt pw (i + 1) - charAt pw i|) (by omega)
        (fun j hj => hd j (List.mem_cons_of_mem _ hj)) (by omega),
      List.map_cons, List.sum_cons, add_assoc]

theorem calculateFitness_unfold (s : List Int) :
    calculateFitness s
      = fl (fl (fl (fl (s.length : ℚ) + (fitnessLoop s).randomness) * specVariety s)
          * (if (fitnessLoop s).repetitionPenalty < 0 then 0
              else (fitnessLoop s).repetitionPenalty)) := by
  unfold calculateFitness
  simp only [varietyOf_fitnessLoop]

theorem calculateFitness_clamped (s : List Int) (h : (fitnessLoop s).repetitionPenalty < 0) :
    calculateFitness s = 0 := by
  rw [calculateFitness_unfold, if_pos h, mul_zero, fl_zero]

theorem calculateFitness_pos (s : List Int) (hlen : 2 ≤ s.length)
    (h : 0 < (fitnessLoop s).repetitionPenalty) : 0 < calculateFitness s := by
  rw [calculateFitness_unfold, if_neg (not_lt.mpr h.le)]
  have hL : (0 : ℚ) < fl (s.length : ℚ) := fl_pos _ (by exact_mod_cast (by omega : 0 < s.length))
  have hV : (0 : ℚ) < specVariety s := lt_of_lt_of_le (by norm_num) (specVariety_ge s hlen)
  have h1 : (0 : ℚ) < fl (fl (s.length : ℚ) + (fitnessLoop s).randomness) :=
    fl_pos _ (add_pos_of_pos_of_nonneg hL (fitnessLoop_randomness_nonneg s))
  exact fl_pos _ (mul_pos (fl_pos _ (mul_pos h1 hV)) h)

theorem penalty_pos (s : List Int) (hK : 4 * specAdjacent s + specDuplicates s ≤ 19) :
    0 < (fitnessLoop s).repetitionPenalty := by
  have h := penalty_close s (by omega)
  rw [abs_le] at h
  have hk : ((4 * specAdjacent s + specDuplicates s : Nat) : ℚ) ≤ 19 := by exact_mod_cast hK
  have hk0 : (0 : ℚ) ≤ ((4 * specAdjacent s + specDuplicates s : Nat) : ℚ) := by positivity
  linarith [h.1]

/-- The condition `0.2 * A + 0.05 * D > 1` in units of `0.05`. -/
theorem units_gt_iff (s : List Int) :
    1 < (1 / 5) * (specAdjacent s : ℚ) + (1 / 20) * (specDuplicates s : ℚ)
      ↔ 21 ≤ 4 * specAdjacent s + specDuplicates s := by
  constructor
  · intro h
    have : (20 : ℚ) < ((4 * specAdjacent s + specDuplicates s : Nat) : ℚ) := by
      push_cast; linarith
    have : 20 < 4 * specAdjacent s + specDuplicates s := by exact_mod_cast this
    omega
  · intro h
    have : (21 : ℚ) ≤ ((4 * specAdjacent s + specDuplicates s : Nat) : ℚ) := by
      exact_mod_cast h
    push_cast at this
    linarith

/-- The condition `0.2 * A + 0.05 * D < 1` in units of `0.05`. -/
theorem units_lt_iff (s : List Int) :
    (1 / 5) * (specAdjacent s : ℚ) + (1 / 20) * (specDuplicates s : ℚ) < 1
      ↔ 4 * specAdjacent s + specDuplicates s ≤ 19 := by
  constructor
  · intro h
    have : ((4 * specAdjacent s + specDuplicates s : Nat) : ℚ) < 20 := by
      push_cast; linarith
    have : 4 * specAdjacent s + specDuplicates s < 20 := by exact_mod_cast this
    omega
  · intro h
    have : ((4 * specAdjacent s + specDuplicates s : Nat) : ℚ) ≤ 19 := by
      exact_mod_cast h
    push_cast at this
    linarith

/-! ## Bounds on the score of repeated and of distinct characters -/

theorem fl_le_of_nonneg (y : ℚ) (hy : 0 ≤ y) : fl y ≤ y * (1001 / 1000) := by
  have h := fl_error y
  rw [abs_of_nonneg hy, abs_le] at h
  have : y / 2 ^ 53 ≤ y / 1000 := div_le_div_of_nonneg_left hy (by norm_num) (by norm_num)
  linarith [h.2]

theorem fl_ge_of_nonneg (y : ℚ) (hy : 0 ≤ y) : y * (999 / 1000) ≤ fl y := by
  have h := fl_error y
  rw [abs_of_nonneg hy, abs_le] at h
  have : y / 2 ^ 53 ≤ y / 1000 := div_le_div_of_nonneg_left hy (by norm_num) (by norm_num)
  linarith [h.1]

theorem randomness_fold_zero (pw : List Int) (l : List Nat)
    (h : ∀ i ∈ l, charAt pw (i + 1) = charAt pw i) :
    l.foldl (fun r i =>
      fl (r + fl ((|charAt pw (i + 1) - charAt pw i| : Int) : ℚ))) 0 = 0 := by
  induction l with
  | nil => rfl
  | cons i l ih =>
    rw [List.foldl_cons, h i (List.mem_cons_self _ _)]
    simp only [sub_self, abs_zero, Int.cast_zero, fl_zero, add_zero]
    exact ih (fun j hj => h j (List.mem_cons_of_mem _ hj))

theorem fitnessLoop_randomness_replicate (n : Nat) (c : Int) :
    (fitnessLoop (List.replicate n c)).randomness = 0 := by
  rw [fitnessLoop_randomness]
  apply randomness_fold_zero
  intro i hi
  rw [List.mem_range, List.length_replicate] at hi
  rw [charAt_replicate n c i (by omega), charAt_replicate n c (i + 1) (by omega)]

/-- With at least five units subtracted the clamped penalty is at most `0.76`. -/
theorem clamped_penalty_le (s : List Int) (hK : 5 ≤ 4 * specAdjacent s + specDuplicates s) :
    (if (fitnessLoop s).repetitionPenalty < 0 then 0 else (fitnessLoop s).repetitionPenalty)
      ≤ 76 / 100 := by
  split_ifs with h
  · norm_num
  · by_cases h24 : 4 * specAdjacent s + specDuplicates s ≤ 24
    · have hc := penalty_close s h24
      rw [abs_le] at hc
      have h5 : (5 : ℚ) ≤ ((4 * specAdjacent s + specDuplicates s : Nat) : ℚ) := by
        exact_mod_cast hK
      have h24' : ((4 * specAdjacent s + specDuplicates s : Nat) : ℚ) ≤ 24 := by
        exact_mod_cast h24
      linarith [hc.2]
    · exact absurd (penalty_neg s (by omega)) h

theorem clamped_penalty_nonneg (s : List Int) :
    0 ≤ (if (fitnessLoop s).repetitionPenalty < 0 then 0
      else (fitnessLoop s).repetitionPenalty) := by
  split_ifs with h
  · exact le_refl _
  · exact not_lt.mp h

/-- A string made of one repeated character, of length `n ≥ 2`, scores at most `0.77` of
a quarter of the double of `n`. -/
theorem calculateFitness_replicate_le (n : Nat) (c : Int) (h : 2 ≤ n) :
    calculateFitness (List.replicate n c) ≤ fl (n : ℚ) * (1 / 4) * (77 / 100) := by
  rw [calculateFitness_unfold, fitnessLoop_randomness_replicate, List.length_replicate,
    add_zero]
  have ha : (0 : ℚ) ≤ fl (n : ℚ) := fl_nonneg _ (by positivity)
  have hV0 := specVariety_nonneg (List.replicate n c)
  have hV : specVariety (List.replicate n c) ≤ 1 / 4 := by
    unfold specVariety
    have : (specClassCount (List.replicate n c) : ℚ) ≤ 1 := by
      exact_mod_cast specClassCount_replicate n c
    linarith
  have hP0 := clamped_penalty_nonneg (List.replicate n c)
  have hP := clamped_penalty_le (List.replicate n c)
    (by have := specAdjacent_replicate n c h; have := specDuplicates_replicate n c h; omega)
  have h1 : (0 : ℚ) ≤ fl (fl (n : ℚ)) := fl_nonneg _ ha
  have h1' : fl (fl (n : ℚ)) ≤ fl (n : ℚ) * (1001 / 1000) := fl_le_of_nonneg _ ha
  have h2 : (0 : ℚ) ≤ fl (fl (n : ℚ)) * specVariety (List.replicate n c) := mul_nonneg h1 hV0
  have h2' : fl (fl (n : ℚ)) * specVariety (List.replicate n c)
      ≤ fl (n : ℚ) * (1001 / 1000) * (1 / 4) :=
    mul_le_mul h1' hV hV0 (by positivity)
  have h3 : (0 : ℚ) ≤ fl (fl (fl (n : ℚ)) * specVariety (List.replicate n c)) :=
    fl_nonneg _ h2
  have h3' : fl (fl (fl (n : ℚ)) * specVariety (List.replicate n c))
      ≤ fl (n : ℚ) * (1001 / 1000) * (1 / 4) * (1001 / 1000) :=
    le_trans (fl_le_of_nonneg _ h2) (mul_le_mul_of_nonneg_right h2' (by norm_num))
  have h4 : fl (fl (fl (n : ℚ)) * specVariety (List.replicate n c))
        * (if (fitnessLoop (List.replicate n c)).repetitionPenalty < 0 then 0
            else (fitnessLoop (List.replicate n c)).repetitionPenalty)
      ≤ fl (n : ℚ) * (1001 / 1000) * (1 / 4) * (1001 / 1000) * (76 / 100) :=
    mul_le_mul h3' hP hP0 (by positivity)
  have h5 := fl_le_of_nonneg _ (mul_nonneg h3 hP0)
  nlinarith [h4, h5, ha]

/-- A string of pairwise distinct characters, of length at least two, scores at least
`0.99` of a quarter of the double of its length. -/
theorem calculateFitness_nodup_ge (s : List Int) (hs : s.Nodup) (h : 2 ≤ s.length) :
    fl (s.length : ℚ) * (1 / 4) * (99 / 100) ≤ calculateFitness s := by
  have hpen : (fitnessLoop s).repetitionPenalty = 1 := by
    have hc := penalty_close s (by rw [specAdjacent_nodup s hs, specDuplicates_nodup s hs]; omega)
    rw [specAdjacent_nodup s hs, specDuplicates_nodup s hs] at hc
    simp only [Nat.mul_zero, Nat.add_zero, Nat.cast_zero, zero_mul, sub_zero, zero_div] at hc
    have := abs_nonpos_iff.mp hc
    linarith
  rw [calculateFitness_unfold, hpen, if_neg (by norm_num), mul_one]
  have ha : (0 : ℚ) ≤ fl (s.length : ℚ) := fl_nonneg _ (by positivity)
  have hr := fitnessLoop_randomness_nonneg s
  have hV := specVariety_ge s h
  have h1 : fl (s.length : ℚ) * (999 / 1000)
      ≤ fl (fl (s.length : ℚ) + (fitnessLoop s).randomness) := by
    have := fl_ge_of_nonneg _ (add_nonneg ha hr)
    nlinarith
  have h1' : (0 : ℚ) ≤ fl (fl (s.length : ℚ) + (fitnessLoop s).randomness) :=
    fl_nonneg _ (add_nonneg ha hr)
  have h2 : fl (s.length : ℚ) * (999 / 1000) * (1 / 4)
      ≤ fl (fl (s.length : ℚ) + (fitnessLoop s).randomness) * specVariety s :=
    mul_le_mul h1 hV (by norm_num) h1'
  have h2' : (0 : ℚ) ≤ fl (fl (s.length : ℚ) + (fitnessLoop s).randomness) * specVariety s :=
    mul_nonneg h1' (by linarith)
  have h3 := fl_ge_of_nonneg _ h2'
  have h3' := fl_nonneg _ h2'
  have h4 := fl_ge_of_nonneg _ h3'
  nlinarith [h2, h3, h4, ha]

/-! ## The score against the real formula -/

theorem diff_le_of_printable (s : List Int) (hs : Printable s) (i : Nat)
    (hi : i + 1 < s.length) : |charAt s (i + 1) - charAt s i| ≤ 93 := by
  have h1 := charAt_printable s hs i (by omega)
  have h2 := charAt_printable s hs (i + 1) hi
  rw [abs_le]
  omega

/-- The sum of the absolute differences of adjacent codes, as an integer. -/
theorem specRandomness_int (s : List Int) :
    specRandomness s
      = ((((List.range (s.length - 1)).map
          (fun i => |charAt s (i + 1) - charAt s i|)).sum : Int) : ℚ) := by
  unfold specRandomness
  rw [sum_map_range]
  push_cast
  rfl

theorem sum_map_bounded (l : List Nat) (f : Nat → Int) (h0 : ∀ i ∈ l, 0 ≤ f i)
    (h1 : ∀ i ∈ l, f i ≤ 93) :
    0 ≤ (l.map f).sum ∧ (l.map f).sum ≤ 93 * (l.length : Int) := by
  induction l with
  | nil => simp
  | cons a l ih =>
    have ha0 := h0 a (List.mem_cons_self _ _)
    have ha1 := h1 a (List.mem_cons_self _ _)
    obtain ⟨i0, i1⟩ := ih (fun i hi => h0 i (List.mem_cons_of_mem _ hi))
      (fun i hi => h1 i (List.mem_cons_of_mem _ hi))
    rw [List.map_cons, List.sum_cons, List.length_cons]
    push_cast
    constructor <;> omega

theorem randomness_int_bounds (s : List Int) (hs : Printable s) :
    0 ≤ ((List.range (s.length - 1)).map (fun i => |charAt s (i + 1) - charAt s i|)).sum ∧
    ((List.range (s.length - 1)).map (fun i => |charAt s (i + 1) - charAt s i|)).sum
      ≤ 93 * ((s.length - 1 : Nat) : Int) := by
  have := sum_map_bounded (List.range (s.length - 1))
    (fun i => |charAt s (i + 1) - charAt s i|) (fun i _ => abs_nonneg _)
    (fun i hi => diff_le_of_printable s hs i (by rw [List.mem_range] at hi; omega))
  rwa [List.length_range] at this

/-- For a printable string shorter than `2 ^ 31` the additions to `randomness` are exact. -/
theorem fitnessLoop_randomness_exact (s : List Int) (hs : Printable s)
    (hlen : s.length < 2 ^ 31) : (fitnessLoop s).randomness = specRandomness s := by
  rw [fitnessLoop_randomness, specRandomness_int]
  have h := randomness_fold_exact s (List.range (s.length - 1)) 0 (le_refl _)
    (fun i hi => diff_le_of_printable s hs i (by rw [List.mem_range] at hi; omega))
    (by rw [List.length_range]; norm_num at hlen ⊢; omega)
  simpa using h

/-- For a printable string shorter than `2 ^ 31` the term `(L + R) * V` is computed without
rounding error, and rounding does not change it. -/
theorem base_exact (s : List Int) (hs : Printable s) (hlen : s.length < 2 ^ 31) :
    fl (fl (fl (s.length : ℚ) + (fitnessLoop s).randomness) * specVariety s)
      = ((s.length : ℚ) + specRandomness s) * specVariety s ∧
    fl (((s.length : ℚ) + specRandomness s) * specVariety s)
      = ((s.length : ℚ) + specRandomness s) * specVariety s := by
  obtain ⟨hR0, hR1⟩ := randomness_int_bounds s hs
  have hc := specClassCount_le_four s
  norm_num at hlen
  have hL : fl (s.length : ℚ) = (s.length : ℚ) := by
    have := fl_int (s.length : Int) (by rw [abs_of_nonneg (by positivity)]; norm_num; omega)
    simpa using this
  have hsum : (s.length : ℚ) + specRandomness s
      = (((s.length : Int) + ((List.range (s.length - 1)).map
          (fun i => |charAt s (i + 1) - charAt s i|)).sum : Int) : ℚ) := by
    rw [specRandomness_int]; push_cast; rfl
  have hLR : fl ((s.length : ℚ) + specRandomness s) = (s.length : ℚ) + specRandomness s := by
    rw [hsum]
    exact fl_int _ (by rw [abs_of_nonneg (by omega)]; norm_num; omega)
  have hprod : ((s.length : ℚ) + specRandomness s) * specVariety s
      = ((((s.length : Int) + ((List.range (s.length - 1)).map
          (fun i => |charAt s (i + 1) - charAt s i|)).sum) * (specClassCount s : Int) : Int) : ℚ)
          * (2 : ℚ) ^ (-2 : Int) := by
    rw [hsum]
    unfold specVariety
    push_cast
    norm_num
    ring
  have hM : fl (((s.length : ℚ) + specRandomness s) * specVariety s)
      = ((s.length : ℚ) + specRandomness s) * specVariety s := by
    rw [hprod]
    apply fl_exact
    have h1 : (0 : Int) ≤ (s.length : Int) + ((List.range (s.length - 1)).map
          (fun i => |charAt s (i + 1) - charAt s i|)).sum := by omega
    have h2 : (s.length : Int) + ((List.range (s.length - 1)).map
          (fun i => |charAt s (i + 1) - charAt s i|)).sum ≤ 94 * 2147483648 := by omega
    have h3 : (0 : Int) ≤ (specClassCount s : Int) := by positivity
    have h4 : (specClassCount s : Int) ≤ 4 := by exact_mod_cast hc
    rw [abs_of_nonneg (mul_nonneg h1 h3)]
    calc ((s.length : Int) + ((List.range (s.length - 1)).map
          (fun i => |charAt s (i + 1) - charAt s i|)).sum) * (specClassCount s : Int)
        ≤ (94 * 2147483648) * 4 := mul_le_mul h2 h4 h3 (by norm_num)
      _ < 2 ^ 53 := by norm_num
  refine ⟨?_, hM⟩
  rw [hL, fitnessLoop_randomness_exact s hs (by norm_num; omega), hLR, hM]

theorem base_nonneg (s : List Int) :
    0 ≤ ((s.length : ℚ) + specRandomness s) * specVariety s :=
  mul_nonneg (add_nonneg (by positivity) (specRandomness_nonneg s)) (specVariety_nonneg s)

/-- The clamped rounded penalty is within `21 * 2 ^ (-53)` of the clamped real penalty. -/
theorem clamped_penalty_near (s : List Int) :
    |(if (fitnessLoop s).repetitionPenalty < 0 then 0 else (fitnessLoop s).repetitionPenalty)
        - specPenalty s| ≤ 21 / 2 ^ 53 := by
  by_cases hK : 4 * specAdjacent s + specDuplicates s ≤ 20
  · have hc := penalty_close s (by omega)
    rw [abs_le] at hc
    have hk : ((4 * specAdjacent s + specDuplicates s : Nat) : ℚ) ≤ 20 := by exact_mod_cast hK
    have hk0 : (0 : ℚ) ≤ ((4 * specAdjacent s + specDuplicates s : Nat) : ℚ) := by positivity
    have hP : specPenalty s
        = 1 - ((4 * specAdjacent s + specDuplicates s : Nat) : ℚ) / 20 := by
      unfold specPenalty
      rw [max_eq_right]
      · push_cast; ring
      · push_cast at hk; linarith
    rw [hP, abs_le]
    split_ifs with h
    · constructor <;> linarith [hc.1, hc.2]
    · constructor <;> linarith [hc.1, hc.2]
  · have hneg := penalty_neg s (by omega)
    have hP : specPenalty s = 0 := by
      unfold specPenalty
      apply max_eq_left
      have : (21 : ℚ) ≤ ((4 * specAdjacent s + specDuplicates s : Nat) : ℚ) := by
        exact_mod_cast (by omega : 21 ≤ 4 * specAdjacent s + specDuplicates s)
      push_cast at this
      linarith
    rw [if_pos hneg, hP]
    norm_num

/-- For a printable string shorter than `2 ^ 31` the score differs from the real formula
`(L + R) * V * P` by at most `2 ^ (-48)` of `(L + R) * V`. -/
theorem calculateFitness_near (s : List Int) (hs : Printable s) (hlen : s.length < 2 ^ 31) :
    |calculateFitness s - ((s.length : ℚ) + specRandomness s) * specVariety s * specPenalty s|
      ≤ ((s.length : ℚ) + specRandomness s) * specVariety s / 2 ^ 48 := by
  rw [calculateFitness_unfold, (base_exact s hs hlen).1]
  have hM := base_nonneg s
  have hnear := clamped_penalty_near s
  have hP0 := clamped_penalty_nonneg s
  have hS0 := specPenalty_nonneg s
  have hS1 : specPenalty s ≤ 1 := by
    unfold specPenalty
    apply max_le (by norm_num)
    have h1 : (0 : ℚ) ≤ (specAdjacent s : ℚ) := by positivity
    have h2 : (0 : ℚ) ≤ (specDuplicates s : ℚ) := by positivity
    linarith
  generalize ((s.length : ℚ) + specRandomness s) * specVariety s = M at hM ⊢
  generalize (if (fitnessLoop s).repetitionPenalty < 0 then (0 : ℚ)
    else (fitnessLoop s).repetitionPenalty) = Q at hnear hP0 ⊢
  generalize specPenalty s = P at hnear hS0 hS1 ⊢
  have herr := fl_error (M * Q)
  rw [abs_of_nonneg (mul_nonneg hM hP0)] at herr
  rw [abs_le] at hnear herr ⊢
  have hQ2 : Q ≤ 2 := by linarith [hnear.2]
  have e1 : M * Q / 2 ^ 53 ≤ M * 2 / 2 ^ 53 :=
    div_le_div_of_nonneg_right (mul_le_mul_of_nonneg_left hQ2 hM) (by positivity)
  have e2 : M * (Q - P) ≤ M * (21 / 2 ^ 53) := mul_le_mul_of_nonneg_left hnear.2 hM
  have e3 : M * (-(21 / 2 ^ 53)) ≤ M * (Q - P) := mul_le_mul_of_nonneg_left hnear.1 hM
  constructor
  · linarith [herr.1]
  · linarith [herr.2]

/-! # Verified properties of `calculateFitness` -/

/-- C1 (as stated, refuted): for the printable string `"aaaa"` the formula
`(L + R) * V * P` gives `(4 + 0) * 0.25 * 0.1 = 0.1`, but `calculateFitness` returns
`0x1.9999999999993p-4`: the penalty is reached by nine rounded subtractions of the doubles
`0.2` and `0.05`. -/
theorem calculateFitness_aaaa_not_formula :
    Printable (codes "aaaa") ∧
    (((codes "aaaa").length : ℚ) + specRandomness (codes "aaaa")) * specVariety (codes "aaaa")
      * specPenalty (codes "aaaa") = 1 / 10 ∧
    calculateFitness (codes "aaaa") = 7205759403792787 / 2 ^ 56 ∧
    calculateFitness (codes "aaaa")
      ≠ (((codes "aaaa").length : ℚ) + specRandomness (codes "aaaa"))
          * specVariety (codes "aaaa") * specPenalty (codes "aaaa") := by
  refine ⟨by decide, by decide!, by decide!, by decide!⟩

/-- C1 (amended): for every printable string `s` of length `L < 2 ^ 31`,
`calculateFitness s` differs from `(L + R) * V * P` by at most `2 ^ (-48)` of
`(L + R) * V`, with `R` the sum of the absolute differences of adjacent codes, `V` a quarter
of the number of classes occurring at the indices `0 .. L-2`, and
`P = max 0 (1 - 0.2 A - 0.05 D)` for `A` adjacent equal pairs and `D` equal index pairs; the
two are equal when no character occurs twice (`A = D = 0`) and when
`0.2 A + 0.05 D > 1`. -/
theorem calculateFitness_near_formula (s : List Int) (hs : Printable s)
    (hlen : s.length < 2 ^ 31) :
    |calculateFitness s
        - ((s.length : ℚ) + specRandomness s) * specVariety s * specPenalty s|
      ≤ ((s.length : ℚ) + specRandomness s) * specVariety s / 2 ^ 48 ∧
    (specAdjacent s = 0 → specDuplicates s = 0 →
      calculateFitness s
        = ((s.length : ℚ) + specRandomness s) * specVariety s * specPenalty s) ∧
    (1 < (1 / 5) * (specAdjacent s : ℚ) + (1 / 20) * (specDuplicates s : ℚ) →
      calculateFitness s
        = ((s.length : ℚ) + specRandomness s) * specVariety s * specPenalty s) := by
  refine ⟨calculateFitness_near s hs hlen, fun hA hD => ?_, fun h => ?_⟩
  · have hpen : (fitnessLoop s).repetitionPenalty = 1 := by
      have hc := penalty_close s (by rw [hA, hD]; omega)
      rw [hA, hD] at hc
      simp only [Nat.mul_zero, Nat.add_zero, Nat.cast_zero, zero_mul, sub_zero, zero_div] at hc
      have := abs_nonpos_iff.mp hc
      linarith
    have hP : specPenalty s = 1 := by
      unfold specPenalty
      rw [hA, hD]
      norm_num
    rw [calculateFitness_unfold, (base_exact s hs hlen).1, hpen, if_neg (by norm_num), hP,
      mul_one, (base_exact s hs hlen).2]
  · have hP : specPenalty s = 0 := by
      unfold specPenalty
      exact max_eq_left (by linarith)
    rw [calculateFitness_clamped s (penalty_neg s ((units_gt_iff s).mp h)), hP, mul_zero]

/-- Instance of the amended C1 at the string `"aA1!x"` without repeated character, whose
score is exactly `156`, and at `"aaaa"`, whose score is within `2 ^ (-48)` of `0.1`. -/
theorem calculateFitness_near_formula_witness :
    ((Printable (codes "aA1!x") ∧ (codes "aA1!x").length < 2 ^ 31 ∧
        specAdjacent (codes "aA1!x") = 0 ∧ specDuplicates (codes "aA1!x") = 0) ∧
      calculateFitness (codes "aA1!x") = 156 ∧
      calculateFitness (codes "aA1!x")
        = (((codes "aA1!x").length : ℚ) + specRandomness (codes "aA1!x"))
            * specVariety (codes "aA1!x") * specPenalty (codes "aA1!x")) ∧
    ((Printable (codes "aaaa") ∧ (codes "aaaa").length < 2 ^ 31) ∧
      |calculateFitness (codes "aaaa")
          - (((codes "aaaa").length : ℚ) + specRandomness (codes "aaaa"))
              * specVariety (codes "aaaa") * specPenalty (codes "aaaa")|
        ≤ (((codes "aaaa").length : ℚ) + specRandomness (codes "aaaa"))
            * specVariety (codes "aaaa") / 2 ^ 48) :=
  ⟨⟨⟨by decide, by decide, by decide!, by decide!⟩, by decide!,
      (calculateFitness_near_formula (codes "aA1!x") (by decide) (by decide)).2.1
        (by decide!) (by decide!)⟩,
    ⟨⟨by decide, by decide⟩,
      (calculateFitness_near_formula (codes "aaaa") (by decide) (by decide)).1⟩⟩

/-- C2: the fitness of every string is non-negative. -/
theorem calculateFitness_nonneg (s : List Int) : 0 ≤ calculateFitness s := by
  rw [calculateFitness_unfold]
  have hL : (0 : ℚ) ≤ fl (s.length : ℚ) := fl_nonneg _ (by positivity)
  have hP : (0 : ℚ) ≤ (if (fitnessLoop s).repetitionPenalty < 0 then 0
      else (fitnessLoop s).repetitionPenalty) := by
    split_ifs with h
    · exact le_refl _
    · exact not_lt.mp h
  exact fl_nonneg _ (mul_nonneg (fl_nonneg _ (mul_nonneg
    (fl_nonneg _ (add_nonneg hL (fitnessLoop_randomness_nonneg s)))
    (specVariety_nonneg s))) hP)

/-- C3: the empty string and every one-character string have fitness exactly `0`, whatever
the character. -/
theorem calculateFitness_short (s : List Int) (h : s.length ≤ 1) : calculateFitness s = 0 := by
  have hloop : fitnessLoop s = fitnessInit := by
    unfold fitnessLoop
    have : s.length - 1 = 0 := by omega
    rw [this]
    rfl
  unfold calculateFitness
  rw [hloop]
  simp [fitnessInit, varietyOf, fl_zero]

/-- Instance of C3 at the one-character string `"a"`. -/
theorem calculateFitness_short_witness :
    (codes "a").length ≤ 1 ∧ calculateFitness (codes "a") = 0 :=
  ⟨by decide, calculateFitness_short (codes "a") (by decide)⟩

/-- C4 (as stated, refuted): `calculateFitness("aaaa")` is not `0.1`, neither the real
number nor the double nearest to it: the subtractions of the doubles `0.2` and `0.05`
leave `0x1.9999999999993p-4`, seven units in the last place below the double `0.1`. -/
theorem calculateFitness_aaaa_not_tenth :
    calculateFitness (codes "aaaa") = 7205759403792787 / 2 ^ 56 ∧
    fl (1 / 10) = 7205759403792794 / 2 ^ 56 ∧
    calculateFitness (codes "aaaa") ≠ 1 / 10 ∧
    calculateFitness (codes "aaaa") ≠ fl (1 / 10) := by
  refine ⟨by decide!, by decide!, by decide!, by decide!⟩

/-- C4 (amended): for every `n ≥ 2`, every printable character `c` and every printable
string `s` of length `n` with pairwise distinct characters, the string made of `n` copies
of `c` scores strictly less than `s`. -/
theorem calculateFitness_repeated_lt_distinct (n : Nat) (c : Int) (s : List Int)
    (hn : 2 ≤ n) (_hc : 33 ≤ c ∧ c ≤ 126) (_hs : Printable s) (hlen : s.length = n)
    (hdistinct : s.Nodup) :
    calculateFitness (List.replicate n c) < calculateFitness s := by
  have h1 := calculateFitness_replicate_le n c hn
  have h2 := calculateFitness_nodup_ge s hdistinct (by omega)
  rw [hlen] at h2
  have hpos : (0 : ℚ) < fl (n : ℚ) := fl_pos _ (by exact_mod_cast (by omega : 0 < n))
  linarith

/-- Instance of the amended C4 at `"aaaa"` against `"abcd"`: the scores are
`0x1.9999999999993p-4` (just below `0.1`) and `1.75`. -/
theorem calculateFitness_repeated_lt_distinct_witness :
    (2 ≤ 4 ∧ (33 ≤ (97 : Int) ∧ (97 : Int) ≤ 126) ∧ Printable (codes "abcd") ∧
      (codes "abcd").length = 4 ∧ (codes "abcd").Nodup) ∧
    List.replicate 4 (97 : Int) = codes "aaaa" ∧
    calculateFitness (codes "aaaa") = 7205759403792787 / 2 ^ 56 ∧
    calculateFitness (codes "abcd") = 7 / 4 ∧
    calculateFitness (List.replicate 4 97) < calculateFitness (codes "abcd") :=
  ⟨⟨by decide, by decide, by decide, by decide, by decide⟩, by decide, by decide!, by decide!,
    calculateFitness_repeated_lt_distinct 4 97 (codes "abcd") (by decide) (by decide)
      (by decide) (by decide) (by decide)⟩

/-! # Verified properties of the particles and the swarm -/

/-- C5: every character of a particle's current string has its code in `[33, 126]` after
`initializeParticle` (for every stream of `rand()` values) and after every call of
`updateParticle`, whatever the particle, its velocity, the global best, the inertia weight
and the draws; hence also for every particle in every round of a run. -/
theorem printable_invariant (rand : Nat → Nat) :
    (∀ (k : Nat) (length : Int), 0 ≤ length →
      ∃ p k1, initializeParticle rand k length = some (p, k1) ∧ Printable p.password) ∧
    (∀ (k : Nat) (p : Particle) (globalBest : List Int) (inertiaWeight : ℚ),
      Printable (updateParticle rand k p globalBest inertiaWeight).1.password) ∧
    (∀ length numParticles maxIterations : Int, 0 ≤ length → 1 ≤ numParticles →
      ∃ st, initialState rand length numParticles = some st ∧
        ∀ t, ∃ s, psoLoop rand numParticles maxIterations st t = some s ∧
          ∀ p ∈ s.swarm, Printable p.password) := by
  refine ⟨fun k length h => ⟨_, _, initializeParticle_some rand k length h,
      initial_printable rand k length.toNat⟩,
    fun k p gb w => updateParticle_printable rand k p gb w,
    fun length numParticles maxIterations hl hn => ?_⟩
  obtain ⟨st, hst, hall⟩ := run_invariant (fun p => Printable p.password) rand
    (fun k length p k1 h => by
      rw [initializeParticle_eq rand k length p k1 h]
      exact initial_printable rand k length.toNat)
    (fun k p gb w _ => updateParticle_printable rand k p gb w)
    length numParticles maxIterations hl hn
  exact ⟨st, hst, fun t => by
    obtain ⟨s, hs, _, hq⟩ := hall t
    exact ⟨s, hs, hq⟩⟩

/-- Instance of C5: a three-character initialisation, and an update of `"!"` whose sum
`33 + 372` leaves the range of `char`. -/
theorem printable_invariant_witness :
    (0 : Int) ≤ 3 ∧
    (∃ p k1, initializeParticle overflowDraws 0 3 = some (p, k1) ∧ Printable p.password) ∧
    Printable (updateParticle (fun _ => RAND_MAX) 0 (stuckParticle 126) [126] (1 / 2)).1.password :=
  ⟨by decide, (printable_invariant overflowDraws).1 0 3 (by decide),
    (printable_invariant (fun _ => RAND_MAX)).2.1 0 (stuckParticle 126) [126] (1 / 2)⟩

/-- C6 (violated by the code): the new code of `current[i]` should be
`clamp(old + round(v), 33, 126)` also when `old + round(v)` leaves the range of `char`.
The code stores the sum into the 8-bit `char` before clamping. On the example of the claim
(`"!"`, both bests `"~"`, `r1 = r2 = 1`, velocity `0`) the sum `405` is stored as `-107` and
clamped to `33`, not `126`; with both bests `"g"` the sum `313` is stored as `57` and kept;
in the run on `overflowDraws` the sum `219` is stored as `-37` and clamped to `33`. -/
theorem updateParticle_overflow :
    ((RAND_MAX : ℚ) / (RAND_MAX : ℚ) = 1) ∧
    (updateParticle (fun _ => RAND_MAX) 0 (stuckParticle 126) [126] (1 / 2)).1.password = [33] ∧
    specUpdateChar 33 126 126 (1 / 2) 0 1 1 = 126 ∧
    (updateParticle (fun _ => RAND_MAX) 0 (stuckParticle 103) [103] (1 / 2)).1.password = [57] ∧
    specUpdateChar 33 103 103 (1 / 2) 0 1 1 = 126 ∧
    (initialState overflowDraws 1 2 = some
      { swarm := [freshParticle [126], freshParticle [33]], globalBest := [126], k := 2 }) ∧
    ((initialState overflowDraws 1 2).bind (fun st => psoLoop overflowDraws 2 1 st 1)
      = some overflowFinal) ∧
    specUpdateChar 33 33 126 (inertiaWeightAt 1 0) 0 0 1 = 126 := by
  refine ⟨by decide!, by decide!, by decide!, by decide!, by decide!, by decide!, by decide!,
    by decide!⟩

/-- C7 (as stated, refuted): in the run on `regressDraws` (`length = 2`, two particles, two
rounds) the particle of maximal current fitness after the second round is the first one; its
current fitness `4.5` is below its personal-best fitness `5.5`, and the global best is its
current string `"&6"`, not its personal best `"!5"`. -/
theorem globalBest_not_personalBest :
    ((initialState regressDraws 2 2).bind (fun st => psoLoop regressDraws 2 2 st 2)
      = some regressFinal) ∧
    regressFinal.swarm[findBestParticle regressFinal.swarm 2]? = some regressBest ∧
    regressBest.fitness < regressBest.personalBestFitness ∧
    regressFinal.globalBest = regressBest.password ∧
    regressFinal.globalBest ≠ regressBest.personalBest ∧
    generatePassword regressDraws 2 2 2 = some regressBest.password := by
  refine ⟨by decide!, by decide!, by decide!, by decide!, by decide!, by decide!⟩

/-- C7 (amended): after each round of the main loop the global best is the current string
(`password`) of the particle of maximal current fitness, the lowest index winning ties,
whether or not that fitness is below the particle's personal-best fitness. -/
theorem globalBest_is_current_of_first_best (rand : Nat → Nat)
    (numParticles maxIterations : Int) (st : SwarmState) (iteration : Nat)
    (hn : 1 ≤ numParticles) (hlen : (st.swarm.length : Int) = numParticles) :
    ∃ s p, psoIteration rand numParticles maxIterations st iteration = some s ∧
      s.swarm[findBestParticle s.swarm numParticles]? = some p ∧
      s.globalBest = p.password ∧
      (∀ i, i < s.swarm.length → fitnessAt s.swarm i ≤ p.fitness) ∧
      (∀ i, i < findBestParticle s.swarm numParticles → fitnessAt s.swarm i < p.fitness) := by
  obtain ⟨s, hs, hsl⟩ := psoIteration_some rand numParticles maxIterations st iteration hn hlen
  obtain ⟨p, hp, hsel⟩ := selectGlobalBest_some s.swarm numParticles hn hsl
  have hg := (psoIteration_swarm rand numParticles maxIterations st s iteration hs).2
  rw [hsel, Option.some.injEq] at hg
  obtain ⟨_, hmax, hfirst⟩ := findBestParticle_spec s.swarm numParticles hn hsl
  have hfit : fitnessAt s.swarm (findBestParticle s.swarm numParticles) = p.fitness := by
    unfold fitnessAt
    rw [hp]
  rw [hfit] at hmax hfirst
  exact ⟨s, p, hs, hp, hg.symm, hmax, hfirst⟩

/-- Instance of the amended C7 at the start state of the run on `regressDraws`. -/
theorem globalBest_is_current_of_first_best_witness :
    (1 : Int) ≤ 2 ∧
    ((([freshParticle [33, 33], freshParticle [33, 43]] : List Particle).length : Int) = 2) ∧
    ∃ s p, psoIteration regressDraws 2 2
        { swarm := [freshParticle [33, 33], freshParticle [33, 43]],
          globalBest := [33, 43], k := 4 } 0 = some s ∧
      s.swarm[findBestParticle s.swarm 2]? = some p ∧
      s.globalBest = p.password ∧
      (∀ i, i < s.swarm.length → fitnessAt s.swarm i ≤ p.fitness) ∧
      (∀ i, i < findBestParticle s.swarm 2 → fitnessAt s.swarm i < p.fitness) :=
  ⟨by decide, by decide, globalBest_is_current_of_first_best regressDraws 2 2
    { swarm := [freshParticle [33, 33], freshParticle [33, 43]],
      globalBest := [33, 43], k := 4 } 0 (by decide) (by decide)⟩

/-- C8: for a swarm of `numParticles ≥ 1` particles, `findBestParticle` returns an index
`b < numParticles` whose fitness is at least the fitness of every particle and strictly
above the fitness of every particle before `b`. -/
theorem findBestParticle_first_max (swarm : List Particle) (numParticles : Int)
    (hn : 1 ≤ numParticles) (hlen : (swarm.length : Int) = numParticles) :
    (0 ≤ (findBestParticle swarm numParticles : Int) ∧
      (findBestParticle swarm numParticles : Int) < numParticles) ∧
    (∀ i, i < swarm.length →
      fitnessAt swarm i ≤ fitnessAt swarm (findBestParticle swarm numParticles)) ∧
    (∀ i, i < findBestParticle swarm numParticles →
      fitnessAt swarm i < fitnessAt swarm (findBestParticle swarm numParticles)) := by
  obtain ⟨h1, h2, h3⟩ := findBestParticle_spec swarm numParticles hn hlen
  exact ⟨⟨by omega, by omega⟩, h2, h3⟩

/-- Instance of C8 on three particles scoring `3`, `5.5`, `5.5`: the index returned is `1`. -/
theorem findBestParticle_first_max_witness :
    (1 : Int) ≤ 3 ∧
    findBestParticle [freshParticle [33, 43], freshParticle [33, 53], freshParticle [53, 33]] 3
      = 1 ∧
    ((0 ≤ (findBestParticle
        [freshParticle [33, 43], freshParticle [33, 53], freshParticle [53, 33]] 3 : Int) ∧
      (findBestParticle
        [freshParticle [33, 43], freshParticle [33, 53], freshParticle [53, 33]] 3 : Int) < 3) ∧
    (∀ i, i < [freshParticle [33, 43], freshParticle [33, 53], freshParticle [53, 33]].length →
      fitnessAt [freshParticle [33, 43], freshParticle [33, 53], freshParticle [53, 33]] i
        ≤ fitnessAt [freshParticle [33, 43], freshParticle [33, 53], freshParticle [53, 33]]
            (findBestParticle
              [freshParticle [33, 43], freshParticle [33, 53], freshParticle [53, 33]] 3)) ∧
    (∀ i, i < findBestParticle
        [freshParticle [33, 43], freshParticle [33, 53], freshParticle [53, 33]] 3 →
      fitnessAt [freshParticle [33, 43], freshParticle [33, 53], freshParticle [53, 33]] i
        < fitnessAt [freshParticle [33, 43], freshParticle [33, 53], freshParticle [53, 33]]
            (findBestParticle
              [freshParticle [33, 43], freshParticle [33, 53], freshParticle [53, 33]] 3))) :=
  ⟨by decide, by decide!, findBestParticle_first_max
    [freshParticle [33, 43], freshParticle [33, 53], freshParticle [53, 33]] 3
    (by decide) (by decide)⟩

/-- C9: `personalBestFitness` after `updateParticle` is at least its value before, for
every particle, global best, inertia weight and draws; and along every run the
personal-best fitness of each particle at a later round is at least the one at an earlier
round. -/
theorem personalBestFitness_monotone (rand : Nat → Nat) :
    (∀ (k : Nat) (p : Particle) (globalBest : List Int) (inertiaWeight : ℚ),
      p.personalBestFitness
        ≤ (updateParticle rand k p globalBest inertiaWeight).1.personalBestFitness) ∧
    (∀ (numParticles maxIterations : Int) (st : SwarmState), 1 ≤ numParticles →
      (st.swarm.length : Int) = numParticles → ∀ t1 t2 : Nat, t1 ≤ t2 →
      ∃ s1 s2, psoLoop rand numParticles maxIterations st t1 = some s1 ∧
        psoLoop rand numParticles maxIterations st t2 = some s2 ∧
        ∀ (i : Nat) (p1 : Particle), s1.swarm[i]? = some p1 →
          ∃ p2 : Particle, s2.swarm[i]? = some p2 ∧
            p1.personalBestFitness ≤ p2.personalBestFitness) := by
  refine ⟨fun k p gb w => updateParticle_best_mono rand k p gb w,
    fun numParticles maxIterations st hn hlen t1 t2 h12 => ?_⟩
  obtain ⟨d, rfl⟩ := Nat.exists_eq_add_of_le h12
  exact psoLoop_best_mono rand numParticles maxIterations st hn hlen t1 d

/-- Instance of C9 on the run on `regressDraws`, between its first and second round, where
the first particle regresses from `5.5` to `4.5` and keeps its personal best. -/
theorem personalBestFitness_monotone_witness :
    (1 : Int) ≤ 2 ∧ (1 : Nat) ≤ 2 ∧
    ∃ s1 s2, psoLoop regressDraws 2 2
        { swarm := [freshParticle [33, 33], freshParticle [33, 43]],
          globalBest := [33, 43], k := 4 } 1 = some s1 ∧
      psoLoop regressDraws 2 2
        { swarm := [freshParticle [33, 33], freshParticle [33, 43]],
          globalBest := [33, 43], k := 4 } 2 = some s2 ∧
      ∀ (i : Nat) (p1 : Particle), s1.swarm[i]? = some p1 →
        ∃ p2 : Particle, s2.swarm[i]? = some p2 ∧
          p1.personalBestFitness ≤ p2.personalBestFitness :=
  ⟨by decide, by decide, (personalBestFitness_monotone regressDraws).2 2 2
    { swarm := [freshParticle [33, 33], freshParticle [33, 43]],
      globalBest := [33, 43], k := 4 } (by decide) (by decide) 1 2 (by decide)⟩

/-- C10: after `initializeParticle`, and after every completed `updateParticle` on a
particle whose `personalBestFitness` is the score of its `personalBest`, the particle has
`personalBestFitness = calculateFitness personalBest`,
`fitness = calculateFitness password` and `personalBestFitness ≥ fitness`; hence every
particle of every round of a run has these three properties. -/
theorem particle_consistency (rand : Nat → Nat) :
    (∀ (k : Nat) (length : Int), 0 ≤ length →
      ∃ p k1, initializeParticle rand k length = some (p, k1) ∧ Consistent p) ∧
    (∀ (k : Nat) (p : Particle) (globalBest : List Int) (inertiaWeight : ℚ),
      p.personalBestFitness = calculateFitness p.personalBest →
      Consistent (updateParticle rand k p globalBest inertiaWeight).1) ∧
    (∀ length numParticles maxIterations : Int, 0 ≤ length → 1 ≤ numParticles →
      ∃ st, initialState rand length numParticles = some st ∧
        ∀ t, ∃ s, psoLoop rand numParticles maxIterations st t = some s ∧
          ∀ p ∈ s.swarm, Consistent p) := by
  refine ⟨fun k length h => ⟨_, _, initializeParticle_some rand k length h,
      freshParticle_consistent _⟩,
    fun k p gb w h => updateParticle_consistent rand k p gb w h,
    fun length numParticles maxIterations hl hn => ?_⟩
  obtain ⟨st, hst, hall⟩ := run_invariant Consistent rand
    (fun k length p k1 h => by
      rw [initializeParticle_eq rand k length p k1 h]
      exact freshParticle_consistent _)
    (fun k p gb w hq => updateParticle_consistent rand k p gb w hq.1)
    length numParticles maxIterations hl hn
  exact ⟨st, hst, fun t => by
    obtain ⟨s, hs, _, hq⟩ := hall t
    exact ⟨s, hs, hq⟩⟩

/-- Instance of C10: a two-character initialisation, and the update that moves the particle
`"!!"` to `"!5"` in the first round of the run on `regressDraws`. -/
theorem particle_consistency_witness :
    (0 : Int) ≤ 2 ∧
    (∃ p k1, initializeParticle regressDraws 0 2 = some (p, k1) ∧ Consistent p) ∧
    (freshParticle [33, 33]).personalBestFitness
      = calculateFitness (freshParticle [33, 33]).personalBest ∧
    Consistent (updateParticle regressDraws 4 (freshParticle [33, 33]) [33, 43] (1 / 2)).1 ∧
    (updateParticle regressDraws 4 (freshParticle [33, 33]) [33, 43] (1 / 2)).1.password
      = [33, 53] :=
  ⟨by decide, (particle_consistency regressDraws).1 0 2 (by decide), rfl,
    (particle_consistency regressDraws).2.1 4 (freshParticle [33, 33]) [33, 43] (1 / 2) rfl,
    by decide!⟩

/-! # Verified properties of updates, runs and configurations -/

/-- C11: after `updateParticle`, with the current fitness recomputed from the new string,
if that fitness is above the previous `personalBestFitness` then `personalBest` is the new
current string and `personalBestFitness` the new fitness; otherwise, equality included,
`personalBest` and `personalBestFitness` are unchanged. -/
theorem personalBest_replaced_iff_improved (rand : Nat → Nat) (k : Nat) (p : Particle)
    (globalBest : List Int) (inertiaWeight : ℚ) :
    (updateParticle rand k p globalBest inertiaWeight).1.fitness
      = calculateFitness (updateParticle rand k p globalBest inertiaWeight).1.password ∧
    ((updateParticle rand k p globalBest inertiaWeight).1.fitness > p.personalBestFitness →
      (updateParticle rand k p globalBest inertiaWeight).1.personalBest
        = (updateParticle rand k p globalBest inertiaWeight).1.password ∧
      (updateParticle rand k p globalBest inertiaWeight).1.personalBestFitness
        = (updateParticle rand k p globalBest inertiaWeight).1.fitness) ∧
    ((updateParticle rand k p globalBest inertiaWeight).1.fitness ≤ p.personalBestFitness →
      (updateParticle rand k p globalBest inertiaWeight).1.personalBest = p.personalBest ∧
      (updateParticle rand k p globalBest inertiaWeight).1.personalBestFitness
        = p.personalBestFitness) :=
  ⟨updateParticle_fitness rand k p globalBest inertiaWeight,
    fun h => updateParticle_best_of_gt rand k p globalBest inertiaWeight h,
    fun h => updateParticle_best_of_not_gt rand k p globalBest inertiaWeight (not_lt.mpr h)⟩

/-- Instance of C11 on the run on `regressDraws`: the first update of `"!!"` improves from
`0.375` to `5.5` and replaces the personal best; an update of `"!+"` towards itself ties at
`3` and keeps it. -/
theorem personalBest_replaced_iff_improved_witness :
    ((updateParticle regressDraws 4 (freshParticle [33, 33]) [33, 43] (1 / 2)).1.fitness
        > (freshParticle [33, 33]).personalBestFitness ∧
      (updateParticle regressDraws 4 (freshParticle [33, 33]) [33, 43] (1 / 2)).1.personalBest
        = (updateParticle regressDraws 4 (freshParticle [33, 33]) [33, 43] (1 / 2)).1.password ∧
      (updateParticle regressDraws 4 (freshParticle [33, 33]) [33, 43] (1 / 2)).1.personalBestFitness
        = (updateParticle regressDraws 4 (freshParticle [33, 33]) [33, 43] (1 / 2)).1.fitness) ∧
    ((updateParticle regressDraws 8 (freshParticle [33, 43]) [33, 43] (1 / 2)).1.fitness
        ≤ (freshParticle [33, 43]).personalBestFitness ∧
      (updateParticle regressDraws 8 (freshParticle [33, 43]) [33, 43] (1 / 2)).1.personalBest
        = (freshParticle [33, 43]).personalBest ∧
      (updateParticle regressDraws 8 (freshParticle [33, 43]) [33, 43] (1 / 2)).1.personalBestFitness
        = (freshParticle [33, 43]).personalBestFitness) :=
  ⟨⟨by decide!, (personalBest_replaced_iff_improved regressDraws 4 (freshParticle [33, 33])
      [33, 43] (1 / 2)).2.1 (by decide!)⟩,
    ⟨by decide!, (personalBest_replaced_iff_improved regressDraws 8 (freshParticle [33, 43])
      [33, 43] (1 / 2)).2.2 (by decide!)⟩⟩

/-- C12: with `maxIterations = 0`, `length ≥ 1` and `numParticles ≥ 1`, `generatePassword`
returns the start string of the first particle of maximal start fitness, the state being
the start state (no update is made); in particular `generatePassword(4, 1, 0)` returns the
four start characters of the single particle. -/
theorem generatePassword_zero_iterations (rand : Nat → Nat) :
    (∀ length numParticles : Int, 1 ≤ length → 1 ≤ numParticles →
      ∃ b : Nat, b < numParticles.toNat ∧
        (∀ j, j < numParticles.toNat →
          calculateFitness (initialString rand (j * length.toNat) length.toNat)
            ≤ calculateFitness (initialString rand (b * length.toNat) length.toNat)) ∧
        (∀ j, j < b →
          calculateFitness (initialString rand (j * length.toNat) length.toNat)
            < calculateFitness (initialString rand (b * length.toNat) length.toNat)) ∧
        initialState rand length numParticles
          = some { swarm := initialSwarm rand length.toNat numParticles.toNat,
                   globalBest := initialString rand (b * length.toNat) length.toNat,
                   k := numParticles.toNat * length.toNat } ∧
        generatePassword rand length numParticles 0
          = some (initialString rand (b * length.toNat) length.toNat)) ∧
    generatePassword rand 4 1 0
      = some [33 + ((rand 0 % 94 : Nat) : Int), 33 + ((rand 1 % 94 : Nat) : Int),
          33 + ((rand 2 % 94 : Nat) : Int), 33 + ((rand 3 % 94 : Nat) : Int)] := by
  constructor
  · intro length numParticles hl hn
    obtain ⟨hb, hst⟩ := initialState_eq rand length numParticles (by omega) hn
    have hlen : ((initialSwarm rand length.toNat numParticles.toNat).length : Int)
        = numParticles := by
      rw [initialSwarm_length]; omega
    obtain ⟨_, hmax, hfirst⟩ := findBestParticle_spec _ numParticles hn hlen
    rw [initialSwarm_length] at hmax
    refine ⟨_, hb, fun j hj => ?_, fun j hj => ?_, hst, ?_⟩
    · have := hmax j hj
      rwa [fitnessAt_initialSwarm rand _ _ j hj, fitnessAt_initialSwarm rand _ _ _ hb] at this
    · have := hfirst j hj
      rwa [fitnessAt_initialSwarm rand _ _ j (by omega),
        fitnessAt_initialSwarm rand _ _ _ hb] at this
    · simp only [generatePassword, hst, Int.toNat_zero, psoLoop]
  · rw [generatePassword_one rand 4 0 (by decide)]
    simp [initialString, List.range_succ]

/-- Instance of C12 on the draws `tieDraws` with `length = 5` and two particles: the start
strings are `[33, 33, 33, 34, 34]` and `[33, 33, 34, 34, 34]`, whose scores
`0x1.3333333333332p-2` and `0x1.3333333333334p-2` differ in the last place, and the call
returns the second. -/
theorem generatePassword_zero_iterations_witness :
    ((1 : Int) ≤ 5 ∧ (1 : Int) ≤ 2) ∧
    calculateFitness [33, 33, 33, 34, 34] = 5404319552844594 / 2 ^ 54 ∧
    calculateFitness [33, 33, 34, 34, 34] = 5404319552844596 / 2 ^ 54 ∧
    generatePassword tieDraws 5 2 0 = some [33, 33, 34, 34, 34] ∧
    ∃ b : Nat, b < (2 : Int).toNat ∧
      (∀ j, j < (2 : Int).toNat →
        calculateFitness (initialString tieDraws (j * (5 : Int).toNat) (5 : Int).toNat)
          ≤ calculateFitness
              (initialString tieDraws (b * (5 : Int).toNat) (5 : Int).toNat)) ∧
      (∀ j, j < b →
        calculateFitness (initialString tieDraws (j * (5 : Int).toNat) (5 : Int).toNat)
          < calculateFitness
              (initialString tieDraws (b * (5 : Int).toNat) (5 : Int).toNat)) ∧
      initialState tieDraws 5 2
        = some { swarm := initialSwarm tieDraws (5 : Int).toNat (2 : Int).toNat,
                 globalBest := initialString tieDraws (b * (5 : Int).toNat) (5 : Int).toNat,
                 k := (2 : Int).toNat * (5 : Int).toNat } ∧
      generatePassword tieDraws 5 2 0
        = some (initialString tieDraws (b * (5 : Int).toNat) (5 : Int).toNat) :=
  ⟨⟨by decide, by decide⟩, by decide!, by decide!, by decide!,
    (generatePassword_zero_iterations tieDraws).1 5 2 (by decide) (by decide)⟩

/-- C13: with `numParticles = 1`, for every `length ≥ 1`, every number of iterations and
every stream of draws, the global best held after each round, and the string that
`generatePassword` returns, is the personal best of the single particle. -/
theorem swarm_of_one_globalBest (rand : Nat → Nat) (length maxIterations : Int)
    (hl : 1 ≤ length) :
    ∃ st, initialState rand length 1 = some st ∧
      (∀ t, ∃ s p, psoLoop rand 1 maxIterations st t = some s ∧ s.swarm = [p] ∧
        s.globalBest = p.personalBest) ∧
      ∃ s p, psoLoop rand 1 maxIterations st maxIterations.toNat = some s ∧ s.swarm = [p] ∧
        generatePassword rand length 1 maxIterations = some p.personalBest := by
  have h0 : 0 ≤ length := by omega
  have hp := initialString_printable rand 0 length.toNat
  refine ⟨_, initialState_one rand length h0, fun t => ?_, ?_⟩
  · exact ⟨_, _, psoLoop_one rand maxIterations _ hp _ t, rfl, rfl⟩
  · exact ⟨_, _, psoLoop_one rand maxIterations _ hp _ _, rfl,
      generatePassword_one rand length maxIterations h0⟩

/-- Instance of C13 with `length = 2` and three rounds on the draws `regressDraws`. -/
theorem swarm_of_one_globalBest_witness :
    (1 : Int) ≤ 2 ∧ generatePassword regressDraws 2 1 3 = some [33, 33] ∧
    ∃ st, initialState regressDraws 2 1 = some st ∧
      (∀ t, ∃ s p, psoLoop regressDraws 1 3 st t = some s ∧ s.swarm = [p] ∧
        s.globalBest = p.personalBest) ∧
      ∃ s p, psoLoop regressDraws 1 3 st (3 : Int).toNat = some s ∧ s.swarm = [p] ∧
        generatePassword regressDraws 2 1 3 = some p.personalBest :=
  ⟨by decide, by decide!, swarm_of_one_globalBest regressDraws 2 3 (by decide)⟩

/-- C14 (as stated, refuted): the call `generatePassword(0, 2, 2)` on the draws
`regressDraws` is not rejected: the swarm of two particles is created and the empty string
is returned. -/
theorem generatePassword_accepts_zero_length :
    initialState regressDraws 0 2
      = some { swarm := [freshParticle [], freshParticle []], globalBest := [], k := 0 } ∧
    generatePassword regressDraws 0 2 2 = some [] := by
  refine ⟨by decide!, by decide!⟩

/-- C14 (amended): a call of `generatePassword` with `length = 0` and `numParticles ≥ 1` is
not rejected: the swarm is created and the empty string is returned, for every
`maxIterations` and every draws. -/
theorem generatePassword_zero_length (rand : Nat → Nat) (numParticles maxIterations : Int)
    (hn : 1 ≤ numParticles) :
    (∃ st, initialState rand 0 numParticles = some st ∧
      (st.swarm.length : Int) = numParticles) ∧
    generatePassword rand 0 numParticles maxIterations = some [] := by
  refine ⟨initialState_some rand 0 numParticles (le_refl _) hn, ?_⟩
  obtain ⟨g, hg, hlen, _⟩ := generatePassword_some rand 0 numParticles maxIterations
    (le_refl _) hn
  rw [Int.toNat_zero, List.length_eq_zero] at hlen
  rw [hg, hlen]

/-- Instance of the amended C14 on the draws `overflowDraws` with three particles and five
rounds. -/
theorem generatePassword_zero_length_witness :
    (1 : Int) ≤ 3 ∧
    (∃ st, initialState overflowDraws 0 3 = some st ∧ (st.swarm.length : Int) = 3) ∧
    generatePassword overflowDraws 0 3 5 = some [] :=
  ⟨by decide, generatePassword_zero_length overflowDraws 3 5 (by decide)⟩

/-- C16 (as stated, refuted): `rand()` can return `RAND_MAX`, and then the coefficient
`(double)rand() / RAND_MAX` is `1`, not below `1`; with it the loop body of `updateParticle`
computes the velocity `2 * 1 * (126 - 33) = 186` for `"!"` drawn towards `"~"`. -/
theorem randomCoefficient_reaches_one :
    RAND_MAX ≤ RAND_MAX ∧
    randomCoefficient RAND_MAX = 1 ∧
    ¬ randomCoefficient RAND_MAX < 1 ∧
    (updateBody (fun _ => RAND_MAX) [33] [126] (1 / 2) ([33], 0, 0) 0).2.1 = 186 := by
  refine ⟨le_refl _, by decide!, by decide!, by decide!⟩

/-- C16 (amended): for every value `n` with `0 ≤ n ≤ RAND_MAX` the coefficient
`r = n / RAND_MAX` used by `updateParticle` satisfies `0 ≤ r ≤ 1`, and `r < 1` exactly when
`n < RAND_MAX`. -/
theorem randomCoefficient_closed_interval (n : Nat) (h : n ≤ RAND_MAX) :
    (∀ (rand : Nat → Nat) (pb gb : List Int) (w : ℚ) (st : List Int × ℚ × Nat) (i : Nat),
      (updateBody rand pb gb w st i).2.1
        = w * st.2.1
          + 2 * randomCoefficient (rand st.2.2) * ((charAt pb i - charAt st.1 i : Int) : ℚ)
          + 2 * randomCoefficient (rand (st.2.2 + 1))
              * ((charAt gb i - charAt st.1 i : Int) : ℚ)) ∧
    0 ≤ randomCoefficient n ∧ randomCoefficient n ≤ 1 ∧
    (randomCoefficient n < 1 ↔ n < RAND_MAX) :=
  ⟨fun rand pb gb w st i => updateBody_velocity rand pb gb w st i,
    randomCoefficient_range n h⟩

/-- Instance of the amended C16 at `n = RAND_MAX`. -/
theorem randomCoefficient_closed_interval_witness :
    RAND_MAX ≤ RAND_MAX ∧
    0 ≤ randomCoefficient RAND_MAX ∧ randomCoefficient RAND_MAX ≤ 1 ∧
    (randomCoefficient RAND_MAX < 1 ↔ RAND_MAX < RAND_MAX) :=
  ⟨le_refl _, (randomCoefficient_closed_interval RAND_MAX (le_refl _)).2⟩

/-- C17: with `numParticles = 1`, `length ≥ 0` and `maxIterations ≥ 0`, for every stream of
draws, `updateParticle` returns the single particle as it was (string, velocity `0`,
fitness and personal best unchanged), the state of the main loop after any number of rounds
is the start state up to the number of calls of `rand`, and `generatePassword` returns the
randomly initialised string. -/
theorem swarm_of_one_never_moves (rand : Nat → Nat) (length maxIterations : Int)
    (hl : 0 ≤ length) (_hm : 0 ≤ maxIterations) :
    ((freshParticle (initialString rand 0 length.toNat)).password
        = initialString rand 0 length.toNat ∧
      (freshParticle (initialString rand 0 length.toNat)).personalBest
        = initialString rand 0 length.toNat ∧
      (freshParticle (initialString rand 0 length.toNat)).velocity = 0) ∧
    initialState rand length 1
      = some { swarm := [freshParticle (initialString rand 0 length.toNat)],
               globalBest := initialString rand 0 length.toNat, k := length.toNat } ∧
    (∀ (k : Nat) (inertiaWeight : ℚ),
      updateParticle rand k (freshParticle (initialString rand 0 length.toNat))
          (initialString rand 0 length.toNat) inertiaWeight
        = (freshParticle (initialString rand 0 length.toNat), k + 2 * length.toNat)) ∧
    (∀ t : Nat, psoLoop rand 1 maxIterations
        { swarm := [freshParticle (initialString rand 0 length.toNat)],
          globalBest := initialString rand 0 length.toNat, k := length.toNat } t
      = some { swarm := [freshParticle (initialString rand 0 length.toNat)],
               globalBest := initialString rand 0 length.toNat,
               k := length.toNat + 2 * length.toNat * t }) ∧
    generatePassword rand length 1 maxIterations
      = some (initialString rand 0 length.toNat) := by
  have hp := initialString_printable rand 0 length.toNat
  have hlen := initialString_length rand 0 length.toNat
  refine ⟨⟨rfl, rfl, rfl⟩, initialState_one rand length hl, fun k w => ?_, fun t => ?_,
    generatePassword_one rand length maxIterations hl⟩
  · have := updateParticle_fixed rand k _ hp w
    rwa [hlen] at this
  · have := psoLoop_one rand maxIterations _ hp length.toNat t
    rwa [hlen] at this

/-- Instance of C17 with `length = 3` and two rounds on the draws `overflowDraws`, whose
start string is `"~!!"`. -/
theorem swarm_of_one_never_moves_witness :
    ((0 : Int) ≤ 3 ∧ (0 : Int) ≤ 2) ∧
    initialString overflowDraws 0 (3 : Int).toNat = [126, 33, 33] ∧
    generatePassword overflowDraws 3 1 2 = some [126, 33, 33] ∧
    generatePassword overflowDraws 3 1 2
      = some (initialString overflowDraws 0 (3 : Int).toNat) :=
  ⟨⟨by decide, by decide⟩, by decide, by decide!,
    (swarm_of_one_never_moves overflowDraws 3 2 (by decide) (by decide)).2.2.2.2⟩

/-- C18: for `length ≥ 1` and `numParticles ≥ 1`, `updateParticle` never changes the length
of the current string, and in every round of a run of `generatePassword` the current string
and the personal best of every particle and the global best have exactly `length`
characters, none of them NUL; so every index below the length of a current string is an
index of the particle's personal best and of the global best, and the returned string has
exactly `length` characters. -/
theorem strings_keep_length (rand : Nat → Nat) (length numParticles maxIterations : Int)
    (hl : 1 ≤ length) (hn : 1 ≤ numParticles) :
    (∀ (k : Nat) (p : Particle) (globalBest : List Int) (inertiaWeight : ℚ),
      (updateParticle rand k p globalBest inertiaWeight).1.password.length
        = p.password.length) ∧
    (∃ st, initialState rand length numParticles = some st ∧
      ∀ t, ∃ s, psoLoop rand numParticles maxIterations st t = some s ∧
        s.globalBest.length = length.toNat ∧ (0 : Int) ∉ s.globalBest ∧
        ∀ p ∈ s.swarm, p.password.length = length.toNat ∧
          p.personalBest.length = length.toNat ∧
          (0 : Int) ∉ p.password ∧ (0 : Int) ∉ p.personalBest ∧
          ∀ i, i < p.password.length → i < p.personalBest.length ∧ i < s.globalBest.length) ∧
    (∃ g, generatePassword rand length numParticles maxIterations = some g ∧
      g.length = length.toNat ∧ (0 : Int) ∉ g) := by
  have h0 : 0 ≤ length := by omega
  refine ⟨fun k p gb w => updateParticle_length rand k p gb w, ?_, ?_⟩
  · obtain ⟨st, hst, hall⟩ := run_wellformed rand length numParticles maxIterations h0 hn
    refine ⟨st, hst, fun t => ?_⟩
    obtain ⟨s, hs, _, hg, hgp, hq⟩ := hall t
    refine ⟨s, hs, hg, zero_not_mem_of_printable _ hgp, fun p hp => ?_⟩
    obtain ⟨h1, h2, h3, h4⟩ := hq p hp
    exact ⟨h1, h2, zero_not_mem_of_printable _ h3, zero_not_mem_of_printable _ h4,
      fun i hi => ⟨by omega, by omega⟩⟩
  · obtain ⟨g, hg, hlen, hp⟩ := generatePassword_some rand length numParticles maxIterations
      h0 hn
    exact ⟨g, hg, hlen, zero_not_mem_of_printable _ hp⟩

/-- Instance of C18 on the run on `regressDraws` with `length = 2`, two particles and two
rounds, which returns the two-character string `"&6"`. -/
theorem strings_keep_length_witness :
    ((1 : Int) ≤ 2 ∧ (1 : Int) ≤ 2) ∧
    generatePassword regressDraws 2 2 2 = some [38, 54] ∧
    ∃ g, generatePassword regressDraws 2 2 2 = some g ∧
      g.length = (2 : Int).toNat ∧ (0 : Int) ∉ g :=
  ⟨⟨by decide, by decide⟩, by decide!,
    (strings_keep_length regressDraws 2 2 2 (by decide) (by decide)).2.2⟩

/-- C19 (as stated, refuted): the printable string `"aabbbcbc"` has three adjacent equal
pairs and eight equal pairs, so `0.2 * A + 0.05 * D = 1` and the penalty of the formula is
clamped to `0`; but the successive subtractions in binary64 leave `2 ^ (-56)`, which is not
clamped, and the fitness is `3 * 2 ^ (-56)`, not `0`. -/
theorem calculateFitness_boundary_positive :
    (Printable (codes "aabbbcbc") ∧ 2 ≤ (codes "aabbbcbc").length) ∧
    specAdjacent (codes "aabbbcbc") = 3 ∧ specDuplicates (codes "aabbbcbc") = 8 ∧
    (1 : ℚ) ≤ (1 / 5) * (specAdjacent (codes "aabbbcbc") : ℚ)
      + (1 / 20) * (specDuplicates (codes "aabbbcbc") : ℚ) ∧
    (fitnessLoop (codes "aabbbcbc")).repetitionPenalty = 1 / 2 ^ 56 ∧
    calculateFitness (codes "aabbbcbc") = 3 / 2 ^ 56 ∧
    calculateFitness (codes "aabbbcbc") ≠ 0 := by
  refine ⟨⟨by decide, by decide⟩, by decide!, by decide!, by decide!, by decide!, by decide!,
    by decide!⟩

/-- C19 (amended): for every printable string `s` of length at least `2` the variety
factor is at least `0.25`; `calculateFitness s = 0` whenever `0.2 * A + 0.05 * D > 1` and
`calculateFitness s > 0` whenever `0.2 * A + 0.05 * D < 1`, for `A` adjacent equal pairs and
`D` equal index pairs; a string with pairwise distinct characters has a positive fitness.
At `0.2 * A + 0.05 * D = 1` the rounding of the subtractions decides: `"aabbbcbc"` scores
`3 * 2 ^ (-56)` and `"ababaabb"` scores `0`. -/
theorem calculateFitness_zero_off_boundary (s : List Int) (_hs : Printable s)
    (hlen : 2 ≤ s.length) :
    1 / 4 ≤ specVariety s ∧
    (1 < (1 / 5) * (specAdjacent s : ℚ) + (1 / 20) * (specDuplicates s : ℚ) →
      calculateFitness s = 0) ∧
    ((1 / 5) * (specAdjacent s : ℚ) + (1 / 20) * (specDuplicates s : ℚ) < 1 →
      0 < calculateFitness s) ∧
    (s.Nodup → 0 < calculateFitness s) ∧
    ((1 / 5) * (specAdjacent (codes "aabbbcbc") : ℚ)
        + (1 / 20) * (specDuplicates (codes "aabbbcbc") : ℚ) = 1 ∧
      calculateFitness (codes "aabbbcbc") = 3 / 2 ^ 56) ∧
    ((1 / 5) * (specAdjacent (codes "ababaabb") : ℚ)
        + (1 / 20) * (specDuplicates (codes "ababaabb") : ℚ) = 1 ∧
      calculateFitness (codes "ababaabb") = 0) := by
  refine ⟨specVariety_ge s hlen, fun h => ?_, fun h => ?_, fun hd => ?_,
    ⟨by decide!, by decide!⟩, ⟨by decide!, by decide!⟩⟩
  · exact calculateFitness_clamped s (penalty_neg s ((units_gt_iff s).mp h))
  · exact calculateFitness_pos s hlen (penalty_pos s ((units_lt_iff s).mp h))
  · apply calculateFitness_pos s hlen
    apply penalty_pos
    rw [specAdjacent_nodup s hd, specDuplicates_nodup s hd]
    omega

/-- Instance of the amended C19 at `"aaaaa"` (four adjacent pairs, ten equal pairs, fitness
`0`), at `"aaaa"` (three and six, positive fitness) and at `"abcd"` (distinct characters,
fitness `1.75`). -/
theorem calculateFitness_zero_off_boundary_witness :
    ((Printable (codes "aaaaa") ∧ 2 ≤ (codes "aaaaa").length ∧
        (1 : ℚ) < (1 / 5) * (specAdjacent (codes "aaaaa") : ℚ)
          + (1 / 20) * (specDuplicates (codes "aaaaa") : ℚ)) ∧
      calculateFitness (codes "aaaaa") = 0) ∧
    ((Printable (codes "aaaa") ∧ 2 ≤ (codes "aaaa").length ∧
        (1 / 5) * (specAdjacent (codes "aaaa") : ℚ)
          + (1 / 20) * (specDuplicates (codes "aaaa") : ℚ) < 1) ∧
      0 < calculateFitness (codes "aaaa")) ∧
    ((Printable (codes "abcd") ∧ 2 ≤ (codes "abcd").length ∧ (codes "abcd").Nodup) ∧
      calculateFitness (codes "abcd") = 7 / 4 ∧ 0 < calculateFitness (codes "abcd")) :=
  ⟨⟨⟨by decide, by decide, by decide!⟩,
      (calculateFitness_zero_off_boundary (codes "aaaaa") (by decide) (by decide)).2.1
        (by decide!)⟩,
    ⟨⟨by decide, by decide, by decide!⟩,
      (calculateFitness_zero_off_boundary (codes "aaaa") (by decide) (by decide)).2.2.1
        (by decide!)⟩,
    ⟨⟨by decide, by decide, by decide⟩, by decide!,
      (calculateFitness_zero_off_boundary (codes "abcd") (by decide) (by decide)).2.2.2.1
        (by decide)⟩⟩

end PSO
